import Mathlib

/-!
Verification development for the pixel-domain matching and compositing core of the
Portrait-Poc repository (src/poc.py and src/replace.py).

The embedding is shallow:
* a `Frame` is a Python list of rows of RGB triples; channel values are `Int`
  (PIL supplies values in `[0,255]`; claims add that as a hypothesis where needed);
* list indexing is modelled by `getE`, returning `none` where Python would raise
  `IndexError` (all index expressions reached in the modelled code paths are
  nonnegative, so Python's negative-index wraparound never fires);
* fallible Python functions (those that can raise) return `Option`;
* the module-level configuration constants of the source are gathered in a
  `MatchConfig` record (the spec, section 6, requires them to be tunable); the
  source's literal values are `defaultConfig`;
* `float` arithmetic in the blur kernel and in the scan-line intersections is
  modelled by `ℚ`, and `math.exp` by an abstract function argument `e : ℚ → ℚ`.
-/

set_option autoImplicit false

/-- RGB pixel: an ordered triple of channel intensities. -/
abbrev Pixel := Int × Int × Int

/-- A frame: Python list of rows, each row a list of pixels. -/
abbrev Frame := List (List Pixel)

/-- `intRangeAux n a = [a, a+1, …, a+n-1]`, helper for Python `range`. -/
def intRangeAux : Nat → Int → List Int
  | 0, _ => []
  | n + 1, a => a :: intRangeAux n (a + 1)

/-- Python `range(a, b)` over integers. -/
def intRange (a b : Int) : List Int :=
  intRangeAux (b - a).toNat a

/-- Read entry `g[y][x]` of a list-of-lists; `none` models Python `IndexError`.
Negative indices yield `none`: the modelled code only ever indexes with
nonnegative coordinates, where Python's wraparound semantics cannot trigger. -/
def getE {α : Type} (g : List (List α)) (y x : Int) : Option α :=
  if 0 ≤ y ∧ 0 ≤ x then (g.get? y.toNat).bind fun row => row.get? x.toNat
  else none

/-- Write pixel `p` at `f[y][x]`; out-of-range writes leave the frame unchanged
(the modelled code only writes in bounds). -/
def setPx (f : Frame) (y x : Int) (p : Pixel) : Frame :=
  if 0 ≤ y ∧ 0 ≤ x then
    match f.get? y.toNat with
    | some row => f.set y.toNat (row.set x.toNat p)
    | none => f
  else f

/-- Height of a frame: `len(image)`. -/
def frameHeight (f : Frame) : Int := f.length

/-- Width of a frame: `len(image[0])` (0 for an empty frame). -/
def frameWidth (f : Frame) : Int := (f.headD []).length

/-- A frame is rectangular when every row has the width given by its first row.
PIL images and the pixel grids built by `extract_pixels_pillow` are rectangular. -/
def Rect (f : Frame) : Prop := ∀ row ∈ f, (row.length : Int) = frameWidth f

/-- Manhattan colour distance `|ΔR| + |ΔG| + |ΔB|` between two pixels. -/
def colorDist (p q : Pixel) : Int :=
  |p.1 - q.1| + |p.2.1 - q.2.1| + |p.2.2 - q.2.2|

/-! ## src/poc.py — configuration constants -/

/-- `MATCH_BLOCK_SIZE` from src/poc.py. -/
def MATCH_BLOCK_SIZE : Int := 60

/-- `SEARCH_RANGE_X` from src/poc.py. -/
def SEARCH_RANGE_X : Int := 40

/-- `SEARCH_RANGE_Y` from src/poc.py. -/
def SEARCH_RANGE_Y : Int := 20

/-- `PIXEL_DIFF_THRESHOLD` from src/poc.py. -/
def PIXEL_DIFF_THRESHOLD : Int := 15

/-- `MAX_MISMATCH_TOLERANCE` from src/poc.py. -/
def MAX_MISMATCH_TOLERANCE : Int := 1000

/-- The tunable matching constants of src/poc.py, as one record. -/
structure MatchConfig where
  blockSize : Int
  rangeX : Int
  rangeY : Int
  diffThreshold : Int
  mismatchCap : Int
deriving DecidableEq, Repr

/-- The source's literal configuration. -/
def defaultConfig : MatchConfig :=
  ⟨MATCH_BLOCK_SIZE, SEARCH_RANGE_X, SEARCH_RANGE_Y, PIXEL_DIFF_THRESHOLD, MAX_MISMATCH_TOLERANCE⟩

/-! ## src/poc.py — `match` -/

/-- The `(y, x)` visit order of the block scan: `for y in range(0, B+1): for x in
range(0, B+1)`. -/
def blockPairs (blockSize : Int) : List (Int × Int) :=
  (intRange 0 (blockSize + 1)).flatMap fun y =>
    (intRange 0 (blockSize + 1)).map fun x => (y, x)

/-- The pixel-comparison loop of `match` (src/poc.py lines 162-180), threading the
running `(pixel_cnt, match_cnt)`.  Returns `none` when a pixel read raises
`IndexError`, `some (10000000, 0)` on the early mismatch-cap exit, and
`some (pixel_cnt, match_cnt)` when the scan completes. -/
def matchLoop (cfg : MatchConfig) (f1 f2 : Frame) (sx sy fx fy : Int) :
    List (Int × Int) → Int → Int → Option (Int × Int)
  | [], pc, mc => some (pc, mc)
  | c :: rest, pc, mc =>
    match getE f1 (c.1 + fy) (c.2 + fx), getE f2 (c.1 + sy) (c.2 + sx) with
    | some p, some q =>
      let pc' := pc + 1
      let mc' := if |colorDist p q| < cfg.diffThreshold then mc + 1 else mc
      if pc' - mc' > cfg.mismatchCap then some (10000000, 0)
      else matchLoop cfg f1 f2 sx sy fx fy rest pc' mc'
    | _, _ => none

/-- `match(frame_one, frame_two, second_start_x, second_start_y, first_start_x,
first_start_y)` from src/poc.py (named `match'` because `match` is reserved in
Lean).  Both windows are bounds-checked against `frame_one`'s dimensions, exactly
as in the source; `none` models an uncaught `IndexError` (empty `frame_one`, or a
read past the end of `frame_two`). -/
def match' (cfg : MatchConfig) (f1 f2 : Frame) (sx sy fx fy : Int) : Option (Int × Int) :=
  match f1.head? with
  | none => none
  | some row0 =>
    let width : Int := row0.length
    let height : Int := f1.length
    if fx + cfg.blockSize ≥ width ∨ fy + cfg.blockSize ≥ height
        ∨ sx + cfg.blockSize ≥ width ∨ sy + cfg.blockSize ≥ height
        ∨ fx < 0 ∨ fy < 0 ∨ sx < 0 ∨ sy < 0 then
      some (10000000, 0)
    else matchLoop cfg f1 f2 sx sy fx fy (blockPairs cfg.blockSize) 0 0

/-! ## src/poc.py — `find_position_in_first_image` -/

/-- The `(y, x)` candidate enumeration order of the search: `for y in
range(start_y - RY, start_y + RY + 1): for x in range(start_x - RX, start_x + RX + 1)`. -/
def searchOffsets (cfg : MatchConfig) (start_x start_y : Int) : List (Int × Int) :=
  (intRange (start_y - cfg.rangeY) (start_y + cfg.rangeY + 1)).flatMap fun y =>
    (intRange (start_x - cfg.rangeX) (start_x + cfg.rangeX + 1)).map fun x => (y, x)

/-- The candidate loop of `find_position_in_first_image`, threading
`(min_val, xx, yy)`; `none` models an `IndexError` propagating out of `match`. -/
def searchLoop (cfg : MatchConfig) (f1 f2 : Frame) (start_x start_y : Int) :
    List (Int × Int) → Int → Int → Int → Option (Int × Int × Int)
  | [], min_val, xx, yy => some (min_val, xx, yy)
  | c :: rest, min_val, xx, yy =>
    match match' cfg f1 f2 c.2 c.1 start_x start_y with
    | none => none
    | some r =>
      if min_val > r.1 - r.2 then
        searchLoop cfg f1 f2 start_x start_y rest (r.1 - r.2)
          (c.2 + cfg.blockSize.fdiv 2) (c.1 + cfg.blockSize.fdiv 2)
      else searchLoop cfg f1 f2 start_x start_y rest min_val xx yy

/-- `find_position_in_first_image(frame_one, frame_two, start_x, start_y)` from
src/poc.py (lines 183-200); returns the `(xx, yy)` pair that the source returns. -/
def find_position_in_first_image (cfg : MatchConfig) (f1 f2 : Frame)
    (start_x start_y : Int) : Option (Int × Int) :=
  (searchLoop cfg f1 f2 start_x start_y (searchOffsets cfg start_x start_y)
      1000000000 (-1) (-1)).map fun t => (t.2.1, t.2.2)

/-- Comparable score of one candidate offset `o = (y, x)`:
`match(...)` gives `[i, j]` and the search compares `i - j`. -/
def scoreOf (cfg : MatchConfig) (f1 f2 : Frame) (sx sy : Int) (o : Int × Int) : Option Int :=
  (match' cfg f1 f2 o.2 o.1 sx sy).map fun r => r.1 - r.2

/-- A candidate annotated with the reported centre coordinate and its score. -/
def annOffset (cfg : MatchConfig) (f1 f2 : Frame) (sx sy : Int) (o : Int × Int) :
    (Int × Int) × Int :=
  ((o.2 + cfg.blockSize.fdiv 2, o.1 + cfg.blockSize.fdiv 2),
    (scoreOf cfg f1 f2 sx sy o).getD 0)

/-- All candidates of a search, annotated with centre and score, in enumeration
order. -/
def scoredCenters (cfg : MatchConfig) (f1 f2 : Frame) (sx sy : Int) :
    List ((Int × Int) × Int) :=
  (searchOffsets cfg sx sy).map (annOffset cfg f1 f2 sx sy)

/-- Helper for `firstArgmin`: the first minimum-score entry of `p :: rest`
(ties resolved to the earlier entry). -/
def firstArgminNe {α : Type} (p : α × Int) : List (α × Int) → α × Int
  | [] => p
  | q :: rest =>
    let b := firstArgminNe q rest
    if p.2 ≤ b.2 then p else b

/-- Modelled from the spec (section 4.2): the first entry attaining the minimum
score, ties resolved to the earliest entry — the reference the search is compared
against for the tie-break claim. -/
def firstArgmin {α : Type} : List (α × Int) → Option (α × Int)
  | [] => none
  | p :: rest => some (firstArgminNe p rest)


/-! ## src/replace.py — configuration constants -/

/-- `FRAME_ONE_X` from src/replace.py. -/
def FRAME_ONE_X : Int := 504

/-- `FRAME_ONE_Y` from src/replace.py. -/
def FRAME_ONE_Y : Int := 431

/-- `FRAME_TWO_X` from src/replace.py. -/
def FRAME_TWO_X : Int := 504

/-- `FRAME_TWO_Y` from src/replace.py. -/
def FRAME_TWO_Y : Int := 431

/-- `SIMILARITY_THRESHOLD` from src/replace.py. -/
def SIMILARITY_THRESHOLD : Int := 1

/-! ## src/replace.py — `manual_fill_polygon`, first pass (perturbation of
near-duplicate pixels; the spec's OutsideMasker) -/

/-- The nudge of the first channel: `r2 - 1 if r2 == 255 else r2 + 1`. -/
def perturbR (r2 : Int) : Int := if r2 = 255 then r2 - 1 else r2 + 1

/-- One iteration of the perturbation pass at coordinate `c = (y, x)`
(src/replace.py lines 61-74).  The texture coordinate is bounds-checked against
the `tex_width`/`tex_height` arguments, as in the source; a pixel whose reads
fail is left unchanged (with truthful texture dimensions and rectangular frames
the reads always succeed, matching PIL, which cannot raise here). -/
def maskPixel (tex : Frame) (texW texH dx dy thr : Int) (f : Frame) (c : Int × Int) : Frame :=
  let tex_x := c.2 + dx
  let tex_y := c.1 + dy
  if 0 ≤ tex_x ∧ tex_x < texW ∧ 0 ≤ tex_y ∧ tex_y < texH then
    match getE f c.1 c.2, getE tex tex_y tex_x with
    | some p, some q =>
      if colorDist p q < thr then setPx f c.1 c.2 (perturbR q.1, q.2.1, q.2.2) else f
    | _, _ => f
  else f

/-- Row-major coordinate grid `for y in range(h): for x in range(w)`. -/
def gridCoords (h w : Int) : List (Int × Int) :=
  (intRange 0 h).flatMap fun y => (intRange 0 w).map fun x => (y, x)

/-- First pass of `manual_fill_polygon` (src/replace.py lines 61-74): for every
pixel of the image, if the offset texture sample is within the given texture
bounds and the Manhattan distance is below the threshold, overwrite the pixel
with the sample, its first channel nudged by one.  `dx`/`dy` abstract the
`FRAME_TWO_X - FRAME_ONE_X` / `FRAME_TWO_Y - FRAME_ONE_Y` offsets and `thr` the
`SIMILARITY_THRESHOLD` of the source.  Note that the polygon is not consulted. -/
def maskPass (f tex : Frame) (texW texH dx dy thr : Int) : Frame :=
  (gridCoords (frameHeight f) (frameWidth f)).foldl (maskPixel tex texW texH dx dy thr) f

/-! ## src/replace.py — `manual_fill_polygon`, second pass (scan-line fill;
the spec's PolygonFiller) -/

/-- Python `round`: round half to even (banker's rounding). -/
def pythonRound (q : ℚ) : Int :=
  let f := q.floor
  if q - f < 1/2 then f
  else if q - f > 1/2 then f + 1
  else if f % 2 = 0 then f else f + 1

/-- The x-intersections of the polygon's edges with scanline `y`
(src/replace.py lines 79-86), in edge order: edge `i` joins `vertices[i]` to
`vertices[(i+1) % len(vertices)]` and contributes
`p1.x + (y - p1.y) * (p2.x - p1.x) / (p2.y - p1.y)` when `y` is in the half-open
vertical span of the edge. -/
def edgeIntersections (vertices : List (Int × Int)) (y : Int) : List ℚ :=
  (List.range vertices.length).filterMap fun i =>
    let p1 := vertices.getD i (0, 0)
    let p2 := vertices.getD ((i + 1) % vertices.length) (0, 0)
    if (p1.2 ≤ y ∧ y < p2.2) ∨ (p2.2 ≤ y ∧ y < p1.2) then
      if p1.2 ≠ p2.2 then
        some ((p1.1 : ℚ) + ((y : ℚ) - (p1.2 : ℚ)) * ((p2.1 : ℚ) - (p1.1 : ℚ))
          / ((p2.2 : ℚ) - (p1.2 : ℚ)))
      else none
    else none

/-- One write of the fill loop at column `x` of scanline `y`
(src/replace.py lines 97-103): sample the texture at the offset coordinate and
copy it in when the offset coordinate passes the texture bounds check; the
`try/except` of the source swallows any failed access, leaving the pixel
unchanged. -/
def fillSpanStep (tex : Frame) (texW texH dx dy y : Int) (f : Frame) (x : Int) : Frame :=
  let tex_x := x + dx
  let tex_y := y + dy
  if 0 ≤ tex_x ∧ tex_x < texW ∧ 0 ≤ tex_y ∧ tex_y < texH then
    match getE tex tex_y tex_x with
    | some p => setPx f y x p
    | none => f
  else f

/-- Fill for one intersection pair `(i0, i1)` on scanline `y`
(src/replace.py lines 89-103): `x_start = max(0, round(i0))`,
`x_end = min(width - 1, round(i1))`, then writes for `x in range(x_start + 1, x_end)`. -/
def pairFill (tex : Frame) (texW texH dx dy w y : Int) (f : Frame) (i0 i1 : ℚ) : Frame :=
  let x_start := max 0 (pythonRound i0)
  let x_end := min (w - 1) (pythonRound i1)
  (intRange (x_start + 1) x_end).foldl (fillSpanStep tex texW texH dx dy y) f

/-- Consume the sorted intersection list two at a time: `(0,1), (2,3), …`; a
trailing unpaired intersection is ignored (`if i + 1 < len(intersections)`). -/
def pairLoop (tex : Frame) (texW texH dx dy w y : Int) : Frame → List ℚ → Frame
  | f, i0 :: i1 :: rest => pairLoop tex texW texH dx dy w y (pairFill tex texW texH dx dy w y f i0 i1) rest
  | f, _ => f

/-- One scanline of the fill pass: sort the intersections ascending
(`intersections.sort()`), then fill the pairs. -/
def scanlineFill (vertices : List (Int × Int)) (tex : Frame) (texW texH dx dy w : Int)
    (f : Frame) (y : Int) : Frame :=
  pairLoop tex texW texH dx dy w y f
    (List.insertionSort (fun a b => a ≤ b) (edgeIntersections vertices y))

/-- `min(v[1] for v in vertices)` (0 for an empty list, which the caller excludes). -/
def minVy (vertices : List (Int × Int)) : Int :=
  match vertices.map Prod.snd with
  | [] => 0
  | a :: rest => rest.foldl min a

/-- `max(v[1] for v in vertices)` (0 for an empty list, which the caller excludes). -/
def maxVy (vertices : List (Int × Int)) : Int :=
  match vertices.map Prod.snd with
  | [] => 0
  | a :: rest => rest.foldl max a

/-- Second pass of `manual_fill_polygon` (src/replace.py lines 77-103): scan-line
fill of the polygon interior over the clamped vertical extent. -/
def fillPass (f : Frame) (vertices : List (Int × Int)) (tex : Frame)
    (texW texH dx dy : Int) : Frame :=
  let min_y := max 0 (minVy vertices)
  let max_y := min (frameHeight f - 1) (maxVy vertices)
  (intRange min_y (max_y + 1)).foldl
    (scanlineFill vertices tex texW texH dx dy (frameWidth f)) f

/-- `manual_fill_polygon(image, vertices, tex_pixels, tex_width, tex_height)`
from src/replace.py: early return on an empty vertex list, then the perturbation
pass over the whole image, then the scan-line fill. -/
def manual_fill_polygon (image : Frame) (vertices : List (Int × Int)) (tex : Frame)
    (texW texH dx dy thr : Int) : Frame :=
  if vertices = [] then image
  else fillPass (maskPass image tex texW texH dx dy thr) vertices tex texW texH dx dy

/-- The per-pixel effect of one perturbation-pass iteration, as a function of the
pixel's current value (derived pixel-level restatement of `maskPixel`, proved
equivalent in `maskPass_get`): with the offset sample in the texture bounds and
Manhattan distance below the threshold, the pixel becomes the sample with its
first channel nudged; otherwise it is unchanged. -/
def maskExpected (tex : Frame) (texW texH dx dy thr : Int) (y x : Int) :
    Option Pixel → Option Pixel
  | some p =>
    if 0 ≤ x + dx ∧ x + dx < texW ∧ 0 ≤ y + dy ∧ y + dy < texH then
      match getE tex (y + dy) (x + dx) with
      | some q => if colorDist p q < thr then some (perturbR q.1, q.2.1, q.2.2) else some p
      | none => some p
    else some p
  | none => none

/-- The per-pixel effect of one fill write, as a function of the pixel's current
value (derived pixel-level restatement of `fillSpanStep`, proved equivalent in
`pairFill_get`): with the offset sample in the texture bounds, the pixel becomes
the sample; otherwise it is unchanged. -/
def fillExpected (tex : Frame) (texW texH dx dy : Int) (y x : Int) :
    Option Pixel → Option Pixel
  | some p =>
    if 0 ≤ x + dx ∧ x + dx < texW ∧ 0 ≤ y + dy ∧ y + dy < texH then
      match getE tex (y + dy) (x + dx) with
      | some q => some q
      | none => some p
    else some p
  | none => none

/-! ## src/poc.py — `gaussian_kernel` and `gaussian_blur` -/

/-- `gaussian_kernel(radius, sigma=None)` from src/poc.py (lines 74-80), with
`math.exp` abstracted as `e : ℚ → ℚ`.  `none` models an uncaught
`ZeroDivisionError`: `sigma = radius / 2` vanishes at radius 0 (making the
exponent's denominator zero on a nonempty range), and a kernel summing to zero
would fail at normalization.  A negative radius gives an *empty* range: the list
comprehensions evaluate nothing and the function returns `[]` without error. -/
def gaussian_kernel (e : ℚ → ℚ) (radius : Int) (sigma : Option ℚ) : Option (List ℚ) :=
  let σ : ℚ := sigma.getD ((radius : ℚ) / 2)
  let xs := intRange (-radius) (radius + 1)
  if xs.isEmpty then some []
  else if σ = 0 then none
  else
    let kernel := xs.map fun x => e (-((x : ℚ)) ^ 2 / (2 * σ ^ 2))
    let total := kernel.sum
    if total = 0 then none
    else some (kernel.map fun v => v / total)

/-- Channel values of a pixel as rationals (Python promotes int to float). -/
def ratPx (p : Pixel) : ℚ × ℚ × ℚ := ((p.1 : ℚ), (p.2.1 : ℚ), (p.2.2 : ℚ))

/-- `min(max(i, lo), hi)`: the edge clamping of the blur. -/
def clampIdx (i lo hi : Int) : Int := min (max i lo) hi

/-- The inner kernel loop of a blur pass: accumulate `channel * weight` over the
kernel entries, `fetch k` supplying the clamped sample for kernel index `k`;
`none` propagates a failed sample read. -/
def convK (fetch : Int → Option (ℚ × ℚ × ℚ)) : List ℚ → Int → ℚ × ℚ × ℚ → Option (ℚ × ℚ × ℚ)
  | [], _, acc => some acc
  | w :: ws, k, acc =>
    match fetch k with
    | none => none
    | some s => convK fetch ws (k + 1) (acc.1 + s.1 * w, acc.2.1 + s.2.1 * w, acc.2.2 + s.2.2 * w)

/-- Turn a list of optional values into an optional list (`none` propagates). -/
def seqOpt {α : Type} : List (Option α) → Option (List α)
  | [] => some []
  | none :: _ => none
  | some a :: rest => (seqOpt rest).map fun l => a :: l

/-- Build an `h × w` grid from an entry generator, propagating failure. -/
def buildGrid {α : Type} (h w : Nat) (f : Nat → Nat → Option α) : Option (List (List α)) :=
  seqOpt ((List.range h).map fun y => seqOpt ((List.range w).map fun x => f y x))

/-- Python `int()` on a float: truncation toward zero. -/
def pyInt (q : ℚ) : Int := if 0 ≤ q then q.floor else q.ceil

/-- `gaussian_blur(image, radius)` from src/poc.py (lines 82-119): horizontal
then vertical 1-D convolution with the default-sigma kernel, sample coordinates
clamped to the image, final channel sums truncated to integers.  `none` models an
uncaught exception (empty image, kernel failure, or a failed row access). -/
def gaussian_blur (e : ℚ → ℚ) (image : Frame) (radius : Int) : Option Frame :=
  image.head?.bind fun row0 =>
    let height := image.length
    let width := row0.length
    (gaussian_kernel e radius none).bind fun kernel =>
      (buildGrid height width (fun y x =>
          convK (fun k =>
              (getE image (y : Int) (clampIdx ((x : Int) + (k - radius)) 0 ((width : Int) - 1))).map ratPx)
            kernel 0 (0, 0, 0))).bind fun temp =>
        (buildGrid height width (fun y x =>
            convK (fun k =>
                getE temp (clampIdx ((y : Int) + (k - radius)) 0 ((height : Int) - 1)) (x : Int))
              kernel 0 (0, 0, 0))).map
          fun g => g.map fun row => row.map fun c => (pyInt c.1, pyInt c.2.1, pyInt c.2.2)


/-! ## Basic lemmas: ranges, grids, access -/

theorem mem_intRangeAux {n : Nat} : ∀ {a z : Int}, z ∈ intRangeAux n a ↔ a ≤ z ∧ z < a + n := by
  induction n with
  | zero => intro a z; simp [intRangeAux]
  | succ k ih =>
    intro a z
    simp only [intRangeAux, List.mem_cons, ih]
    omega

theorem mem_intRange {a b z : Int} : z ∈ intRange a b ↔ a ≤ z ∧ z < b := by
  unfold intRange
  rw [mem_intRangeAux]
  omega

theorem intRange_eq_cons {a b : Int} (h : a < b) : intRange a b = a :: intRange (a + 1) b := by
  unfold intRange
  have h1 : (b - a).toNat = (b - (a + 1)).toNat + 1 := by omega
  rw [h1]
  rfl

theorem intRange_nodup {a b : Int} : (intRange a b).Nodup := by
  suffices h : ∀ (n : Nat) (a : Int), (intRangeAux n a).Nodup by exact h _ _
  intro n
  induction n with
  | zero => intro a; simp [intRangeAux]
  | succ k ih =>
    intro a
    simp only [intRangeAux, List.nodup_cons]
    refine ⟨fun hmem => ?_, ih (a + 1)⟩
    rw [mem_intRangeAux] at hmem
    omega

theorem length_intRange {a b : Int} : (intRange a b).length = (b - a).toNat := by
  suffices h : ∀ (n : Nat) (a : Int), (intRangeAux n a).length = n by exact h _ _
  intro n
  induction n with
  | zero => intro a; rfl
  | succ k ih => intro a; simp [intRangeAux, ih]

theorem mem_blockPairs {B : Int} {c : Int × Int} :
    c ∈ blockPairs B ↔ 0 ≤ c.1 ∧ c.1 < B + 1 ∧ 0 ≤ c.2 ∧ c.2 < B + 1 := by
  unfold blockPairs
  simp only [List.mem_flatMap, List.mem_map, mem_intRange]
  constructor
  · rintro ⟨y, hy, x, hx, rfl⟩
    exact ⟨hy.1, hy.2, hx.1, hx.2⟩
  · rintro ⟨h1, h2, h3, h4⟩
    exact ⟨c.1, ⟨h1, h2⟩, c.2, ⟨h3, h4⟩, rfl⟩

theorem mem_searchOffsets {cfg : MatchConfig} {sx sy : Int} {c : Int × Int} :
    c ∈ searchOffsets cfg sx sy ↔
      sy - cfg.rangeY ≤ c.1 ∧ c.1 < sy + cfg.rangeY + 1 ∧
      sx - cfg.rangeX ≤ c.2 ∧ c.2 < sx + cfg.rangeX + 1 := by
  unfold searchOffsets
  simp only [List.mem_flatMap, List.mem_map, mem_intRange]
  constructor
  · rintro ⟨y, hy, x, hx, rfl⟩
    exact ⟨hy.1, hy.2, hx.1, hx.2⟩
  · rintro ⟨h1, h2, h3, h4⟩
    exact ⟨c.1, ⟨h1, h2⟩, c.2, ⟨h3, h4⟩, rfl⟩

theorem gridCoords_mem {h w : Int} {c : Int × Int} :
    c ∈ gridCoords h w ↔ 0 ≤ c.1 ∧ c.1 < h ∧ 0 ≤ c.2 ∧ c.2 < w := by
  unfold gridCoords
  simp only [List.mem_flatMap, List.mem_map, mem_intRange]
  constructor
  · rintro ⟨y, hy, x, hx, rfl⟩
    exact ⟨hy.1, hy.2, hx.1, hx.2⟩
  · rintro ⟨h1, h2, h3, h4⟩
    exact ⟨c.1, ⟨h1, h2⟩, c.2, ⟨h3, h4⟩, rfl⟩

theorem gridCoords_nodup {h w : Int} : (gridCoords h w).Nodup := by
  unfold gridCoords
  refine List.nodup_flatMap.2 ⟨fun y _ => ?_, ?_⟩
  · exact List.Nodup.map (fun x x' hxx => by simpa using hxx) intRange_nodup
  · refine List.Pairwise.imp ?_ intRange_nodup
    intro y y' hne c hc hc'
    simp only [Function.onFun, List.mem_map] at hc hc'
    obtain ⟨x, _, rfl⟩ := hc
    obtain ⟨x', _, h2⟩ := hc'
    exact hne (by simpa using congrArg Prod.fst h2.symm)

theorem getE_isSome_of_rect {f : Frame} (hr : Rect f) {y x : Int}
    (hy0 : 0 ≤ y) (hy : y < frameHeight f) (hx0 : 0 ≤ x) (hx : x < frameWidth f) :
    (getE f y x).isSome := by
  unfold getE
  rw [if_pos ⟨hy0, hx0⟩]
  have hylt : y.toNat < f.length := by
    unfold frameHeight at hy
    omega
  rw [List.get?_eq_get hylt]
  have hmem : f.get ⟨y.toNat, hylt⟩ ∈ f := List.get_mem f _ _
  have hlen : ((f.get ⟨y.toNat, hylt⟩).length : Int) = frameWidth f := hr _ hmem
  have hxlt : x.toNat < (f.get ⟨y.toNat, hylt⟩).length := by omega
  simp only [Option.some_bind]
  rw [List.get?_eq_get hxlt]
  rfl

theorem getE_eq_some_of_rect {f : Frame} (hr : Rect f) {y x : Int}
    (hy0 : 0 ≤ y) (hy : y < frameHeight f) (hx0 : 0 ≤ x) (hx : x < frameWidth f) :
    ∃ p, getE f y x = some p := by
  have h := getE_isSome_of_rect hr hy0 hy hx0 hx
  exact Option.isSome_iff_exists.mp h

theorem getE_nonneg_of_isSome {α : Type} {g : List (List α)} {y x : Int}
    (h : (getE g y x).isSome) : 0 ≤ y ∧ 0 ≤ x := by
  unfold getE at h
  by_cases hc : 0 ≤ y ∧ 0 ≤ x
  · exact hc
  · rw [if_neg hc] at h
    simp at h

theorem getE_setPx_self {f : Frame} {y x : Int} {p : Pixel}
    (h : (getE f y x).isSome) : getE (setPx f y x p) y x = some p := by
  obtain ⟨hy0, hx0⟩ := getE_nonneg_of_isSome h
  unfold getE at h ⊢
  rw [if_pos ⟨hy0, hx0⟩] at h ⊢
  unfold setPx
  rw [if_pos ⟨hy0, hx0⟩]
  match hrow : f.get? y.toNat with
  | none => rw [hrow] at h; simp at h
  | some row =>
    rw [hrow] at h
    simp only [Option.some_bind] at h
    have hylt : y.toNat < f.length := List.get?_eq_some.mp hrow |>.1
    have hxlt : x.toNat < row.length := by
      by_contra hge
      rw [List.get?_eq_none.mpr (by omega)] at h
      simp at h
    rw [List.get?_set_eq_of_lt _ hylt]
    simp only [Option.some_bind]
    rw [List.get?_set_eq_of_lt _ hxlt]

theorem getE_setPx_ne {f : Frame} {y x y' x' : Int} {p : Pixel}
    (h : (y', x') ≠ (y, x)) : getE (setPx f y x p) y' x' = getE f y' x' := by
  unfold setPx
  by_cases hyx : 0 ≤ y ∧ 0 ≤ x
  · rw [if_pos hyx]
    match hrow : f.get? y.toNat with
    | none => rfl
    | some row =>
      unfold getE
      by_cases hyx' : 0 ≤ y' ∧ 0 ≤ x'
      · rw [if_pos hyx', if_pos hyx']
        by_cases hyy : y'.toNat = y.toNat
        · have hyy' : y' = y := by omega
          have hxx : x' ≠ x := fun hx => h (by rw [hyy', hx])
          rw [hyy]
          rw [List.get?_set_eq_of_lt _ (List.get?_eq_some.mp hrow |>.1), hrow]
          simp only [Option.some_bind]
          rw [List.get?_set_ne _ _ (by omega)]
        · rw [List.get?_set_ne _ _ (by omega)]
      · rw [if_neg hyx', if_neg hyx']
  · rw [if_neg hyx]

theorem getE_setPx_none {f : Frame} {y x : Int} {p : Pixel} (h : getE f y x = none) :
    getE (setPx f y x p) y x = none := by
  by_cases hyx : 0 ≤ y ∧ 0 ≤ x
  · cases hrow : f.get? y.toNat with
    | none =>
      have hset : setPx f y x p = f := by
        unfold setPx
        rw [if_pos hyx, hrow]
      rw [hset]
      exact h
    | some row =>
      have hset : setPx f y x p = f.set y.toNat (row.set x.toNat p) := by
        unfold setPx
        rw [if_pos hyx, hrow]
      rw [hset]
      unfold getE at h ⊢
      rw [if_pos hyx] at h ⊢
      rw [hrow] at h
      simp only [Option.some_bind] at h
      rw [List.get?_set_eq_of_lt _ (List.get?_eq_some.mp hrow |>.1)]
      simp only [Option.some_bind]
      rw [List.get?_eq_none.mpr (by rw [List.length_set]; exact List.get?_eq_none.mp h)]
  · have hset : setPx f y x p = f := by
      unfold setPx
      rw [if_neg hyx]
    rw [hset]
    exact h

/-! ## Lemmas about `match` -/

theorem colorDist_self (p : Pixel) : colorDist p p = 0 := by
  simp [colorDist]

theorem frameWidth_cons (row0 : List Pixel) (rest : Frame) :
    frameWidth (row0 :: rest) = row0.length := rfl

theorem matchLoop_counts (cfg : MatchConfig) (f1 f2 : Frame) (sx sy fx fy : Int) :
    ∀ (l : List (Int × Int)) (pc mc : Int) (r : Int × Int),
      matchLoop cfg f1 f2 sx sy fx fy l pc mc = some r →
      r = (10000000, 0) ∨ (r.1 = pc + l.length ∧ mc ≤ r.2 ∧ r.2 ≤ mc + l.length) := by
  intro l
  induction l with
  | nil =>
    intro pc mc r h
    simp only [matchLoop, Option.some.injEq] at h
    right
    rw [← h]
    simp
  | cons c rest ih =>
    intro pc mc r h
    rw [matchLoop] at h
    cases hgp : getE f1 (c.1 + fy) (c.2 + fx) with
    | none => rw [hgp] at h; simp at h
    | some p =>
      cases hgq : getE f2 (c.1 + sy) (c.2 + sx) with
      | none => rw [hgp, hgq] at h; simp at h
      | some q =>
        rw [hgp, hgq] at h
        simp only [] at h
        by_cases hcap :
            pc + 1 - (if |colorDist p q| < cfg.diffThreshold then mc + 1 else mc) >
              cfg.mismatchCap
        · rw [if_pos hcap] at h
          left
          exact (Option.some.injEq _ _ ▸ h).symm
        · rw [if_neg hcap] at h
          rcases ih _ _ _ h with hsent | ⟨h1, h2, h3⟩
          · exact Or.inl hsent
          · right
            have hmc : (if |colorDist p q| < cfg.diffThreshold then mc + 1 else mc) = mc + 1 ∨
                (if |colorDist p q| < cfg.diffThreshold then mc + 1 else mc) = mc := by
              split
              · exact Or.inl rfl
              · exact Or.inr rfl
            simp only [List.length_cons] at *
            rcases hmc with hmc | hmc <;> exact ⟨by omega, by omega, by omega⟩

theorem matchLoop_cap (cfg : MatchConfig) (f1 f2 : Frame) (sx sy fx fy : Int) :
    ∀ (l : List (Int × Int)) (pc mc : Int) (r : Int × Int), l ≠ [] →
      matchLoop cfg f1 f2 sx sy fx fy l pc mc = some r →
      r = (10000000, 0) ∨ r.1 - r.2 ≤ cfg.mismatchCap := by
  intro l
  induction l with
  | nil => intro pc mc r hne; exact absurd rfl hne
  | cons c rest ih =>
    intro pc mc r _ h
    rw [matchLoop] at h
    cases hgp : getE f1 (c.1 + fy) (c.2 + fx) with
    | none => rw [hgp] at h; simp at h
    | some p =>
      cases hgq : getE f2 (c.1 + sy) (c.2 + sx) with
      | none => rw [hgp, hgq] at h; simp at h
      | some q =>
        rw [hgp, hgq] at h
        simp only [] at h
        by_cases hcap :
            pc + 1 - (if |colorDist p q| < cfg.diffThreshold then mc + 1 else mc) >
              cfg.mismatchCap
        · rw [if_pos hcap] at h
          left
          exact (Option.some.injEq _ _ ▸ h).symm
        · rw [if_neg hcap] at h
          cases rest with
          | nil =>
            simp only [matchLoop, Option.some.injEq] at h
            right
            rw [← h]
            simp only []
            omega
          | cons c' rest' => exact ih _ _ _ (by simp) h

theorem matchLoop_isSome (cfg : MatchConfig) (f1 f2 : Frame) (sx sy fx fy : Int) :
    ∀ (l : List (Int × Int)) (pc mc : Int),
      (∀ c ∈ l, (getE f1 (c.1 + fy) (c.2 + fx)).isSome ∧ (getE f2 (c.1 + sy) (c.2 + sx)).isSome) →
      (matchLoop cfg f1 f2 sx sy fx fy l pc mc).isSome := by
  intro l
  induction l with
  | nil => intro pc mc _; simp [matchLoop]
  | cons c rest ih =>
    intro pc mc hreads
    obtain ⟨hp, hq⟩ := hreads c (List.mem_cons_self c rest)
    obtain ⟨p, hgp⟩ := Option.isSome_iff_exists.mp hp
    obtain ⟨q, hgq⟩ := Option.isSome_iff_exists.mp hq
    rw [matchLoop, hgp, hgq]
    simp only []
    split
    · split
      · simp
      · exact ih _ _ fun c' hc' => hreads c' (List.mem_cons_of_mem c hc')
    · split
      · simp
      · exact ih _ _ fun c' hc' => hreads c' (List.mem_cons_of_mem c hc')

theorem matchLoop_self (cfg : MatchConfig) (f : Frame) (fx fy : Int)
    (hthr : 0 < cfg.diffThreshold) :
    ∀ (l : List (Int × Int)) (pc mc : Int),
      (∀ c ∈ l, (getE f (c.1 + fy) (c.2 + fx)).isSome) →
      pc - mc ≤ cfg.mismatchCap →
      matchLoop cfg f f fx fy fx fy l pc mc = some (pc + l.length, mc + l.length) := by
  intro l
  induction l with
  | nil => intro pc mc _ _; simp [matchLoop]
  | cons c rest ih =>
    intro pc mc hreads hcap
    obtain ⟨p, hgp⟩ := Option.isSome_iff_exists.mp (hreads c (List.mem_cons_self c rest))
    have hcond : |colorDist p p| < cfg.diffThreshold := by
      rw [colorDist_self]
      simpa using hthr
    rw [matchLoop, hgp]
    simp only [if_pos hcond]
    rw [if_neg (by omega)]
    rw [ih (pc + 1) (mc + 1) (fun c' hc' => hreads c' (List.mem_cons_of_mem c hc')) (by omega)]
    simp only [List.length_cons, Option.some.injEq, Prod.mk.injEq]
    omega

theorem length_blockPairs {B : Int} :
    (blockPairs B).length = (B + 1).toNat * (B + 1).toNat := by
  unfold blockPairs
  rw [List.length_flatMap]
  have h1 : List.map (List.length ∘ fun y => List.map (fun x => ((y : Int), x)) (intRange 0 (B + 1)))
      (intRange 0 (B + 1)) = List.map (fun _ => (B + 1).toNat) (intRange 0 (B + 1)) := by
    apply List.map_congr_left
    intro y _
    simp [length_intRange]
  rw [h1, List.map_const', List.sum_replicate, smul_eq_mul, length_intRange]
  have h2 : B + 1 - 0 = B + 1 := by omega
  rw [h2]

theorem blockPairs_ne_nil {B : Int} (hB : 0 ≤ B) : blockPairs B ≠ [] := by
  have h : (blockPairs B).length ≠ 0 := by
    rw [length_blockPairs]
    have : (B + 1).toNat ≠ 0 := by omega
    positivity
  exact fun hnil => h (by rw [hnil]; rfl)

theorem mem_blockPairs_reads {cfg : MatchConfig} {f : Frame} {a b : Int}
    (hr : Rect f) (ha0 : 0 ≤ a) (hb0 : 0 ≤ b)
    (haw : a + cfg.blockSize < frameWidth f) (hbh : b + cfg.blockSize < frameHeight f)
    {c : Int × Int} (hc : c ∈ blockPairs cfg.blockSize) :
    (getE f (c.1 + b) (c.2 + a)).isSome := by
  rw [mem_blockPairs] at hc
  exact getE_isSome_of_rect hr (by omega) (by omega) (by omega) (by omega)

theorem match'_sentinel_of_bounds (cfg : MatchConfig) (f1 f2 : Frame) (sx sy fx fy : Int)
    (hne : f1 ≠ [])
    (hb : fx + cfg.blockSize ≥ frameWidth f1 ∨ fy + cfg.blockSize ≥ frameHeight f1
       ∨ sx + cfg.blockSize ≥ frameWidth f1 ∨ sy + cfg.blockSize ≥ frameHeight f1
       ∨ fx < 0 ∨ fy < 0 ∨ sx < 0 ∨ sy < 0) :
    match' cfg f1 f2 sx sy fx fy = some (10000000, 0) := by
  obtain ⟨row0, rest, rfl⟩ := List.exists_cons_of_ne_nil hne
  rw [match']
  simp only [List.head?_cons]
  rw [if_pos]
  exact hb

theorem match'_isSome_of_dims (cfg : MatchConfig) (f1 f2 : Frame) (sx sy fx fy : Int)
    (hne : f1 ≠ []) (hr1 : Rect f1) (hr2 : Rect f2)
    (hw : frameWidth f2 = frameWidth f1) (hh : frameHeight f2 = frameHeight f1) :
    (match' cfg f1 f2 sx sy fx fy).isSome := by
  obtain ⟨row0, rest, rfl⟩ := List.exists_cons_of_ne_nil hne
  rw [match']
  simp only [List.head?_cons]
  split
  · rfl
  · rename_i hbounds
    push_neg at hbounds
    obtain ⟨h1, h2, h3, h4, h5, h6, h7, h8⟩ := hbounds
    have hwc : (row0.length : Int) = frameWidth (row0 :: rest) := rfl
    have hhc : ((row0 :: rest).length : Int) = frameHeight (row0 :: rest) := rfl
    apply matchLoop_isSome
    intro c hc
    constructor
    · exact mem_blockPairs_reads hr1 h5 h6 (by omega) (by exact h2) hc
    · exact mem_blockPairs_reads hr2 h7 h8 (by omega) (by omega) hc

theorem match'_counts (cfg : MatchConfig) (f1 f2 : Frame) (sx sy fx fy : Int) (r : Int × Int)
    (hB : 0 ≤ cfg.blockSize) (h : match' cfg f1 f2 sx sy fx fy = some r) :
    r = (10000000, 0) ∨
      (0 ≤ r.2 ∧ r.2 ≤ r.1 ∧ r.1 = (cfg.blockSize + 1) ^ 2 ∧ r.1 - r.2 ≤ cfg.mismatchCap) := by
  rw [match'] at h
  cases hhead : f1.head? with
  | none => rw [hhead] at h; simp at h
  | some row0 =>
    rw [hhead] at h
    simp only [] at h
    split at h
    · left
      exact (Option.some.injEq _ _ ▸ h).symm
    · rcases matchLoop_counts cfg f1 f2 sx sy fx fy _ _ _ _ h with hsent | ⟨h1, h2, h3⟩
      · exact Or.inl hsent
      · rcases matchLoop_cap cfg f1 f2 sx sy fx fy _ _ _ _ (blockPairs_ne_nil hB) h with
          hsent | hcap
        · exact Or.inl hsent
        · right
          have hlen : ((blockPairs cfg.blockSize).length : Int) =
              (cfg.blockSize + 1) ^ 2 := by
            rw [length_blockPairs]
            have ht : ((cfg.blockSize + 1).toNat : Int) = cfg.blockSize + 1 :=
              Int.toNat_of_nonneg (by omega)
            push_cast
            rw [ht]
            ring
          refine ⟨by omega, by omega, by omega, hcap⟩

theorem match'_score_nonneg (cfg : MatchConfig) (f1 f2 : Frame) (sx sy fx fy : Int)
    (r : Int × Int) (h : match' cfg f1 f2 sx sy fx fy = some r) : 0 ≤ r.1 - r.2 := by
  rw [match'] at h
  cases hhead : f1.head? with
  | none => rw [hhead] at h; simp at h
  | some row0 =>
    rw [hhead] at h
    simp only [] at h
    split at h
    · have := (Option.some.injEq _ _ ▸ h).symm
      rw [this]
      norm_num
    · rcases matchLoop_counts cfg f1 f2 sx sy fx fy _ _ _ _ h with hsent | ⟨h1, h2, h3⟩
      · rw [hsent]; norm_num
      · omega

theorem match'_score_le (cfg : MatchConfig) (f1 f2 : Frame) (sx sy fx fy : Int)
    (r : Int × Int) (h : match' cfg f1 f2 sx sy fx fy = some r) :
    r.1 - r.2 ≤ max cfg.mismatchCap 10000000 := by
  rw [match'] at h
  cases hhead : f1.head? with
  | none => rw [hhead] at h; simp at h
  | some row0 =>
    rw [hhead] at h
    simp only [] at h
    split at h
    · have := (Option.some.injEq _ _ ▸ h).symm
      rw [this]
      simp
    · cases hbp : blockPairs cfg.blockSize with
      | nil =>
        rw [hbp] at h
        simp only [matchLoop, Option.some.injEq] at h
        rw [← h]
        simp only []
        have : (0 : Int) ≤ max cfg.mismatchCap 10000000 :=
          le_trans (by norm_num) (le_max_right _ _)
        omega
      | cons c rest =>
        rcases matchLoop_cap cfg f1 f2 sx sy fx fy _ _ _ _ (by rw [hbp]; simp) h with
          hsent | hcap
        · rw [hsent]
          simp
        · exact le_trans hcap (le_max_left _ _)

theorem match'_self (cfg : MatchConfig) (f : Frame) (fx fy : Int)
    (hr : Rect f) (hB : 0 ≤ cfg.blockSize)
    (hthr : 0 < cfg.diffThreshold) (hcap : 0 ≤ cfg.mismatchCap)
    (hx0 : 0 ≤ fx) (hy0 : 0 ≤ fy)
    (hxw : fx + cfg.blockSize < frameWidth f) (hyh : fy + cfg.blockSize < frameHeight f) :
    match' cfg f f fx fy fx fy =
      some ((cfg.blockSize + 1) ^ 2, (cfg.blockSize + 1) ^ 2) := by
  have hne : f ≠ [] := by
    intro hnil
    rw [hnil] at hyh
    unfold frameHeight at hyh
    simp only [List.length_nil, Nat.cast_zero] at hyh
    omega
  obtain ⟨row0, rest, rfl⟩ := List.exists_cons_of_ne_nil hne
  have hwc : (row0.length : Int) = frameWidth (row0 :: rest) := rfl
  have hhc : ((row0 :: rest).length : Int) = frameHeight (row0 :: rest) := rfl
  rw [match']
  simp only [List.head?_cons]
  rw [if_neg (by push_neg; refine ⟨by omega, by omega, by omega, by omega, hx0, hy0, hx0, hy0⟩)]
  rw [matchLoop_self cfg _ fx fy hthr _ 0 0
    (fun c hc => mem_blockPairs_reads hr hx0 hy0 hxw hyh hc) (by omega)]
  have hlen : ((blockPairs cfg.blockSize).length : Int) = (cfg.blockSize + 1) ^ 2 := by
    rw [length_blockPairs]
    have ht : ((cfg.blockSize + 1).toNat : Int) = cfg.blockSize + 1 :=
      Int.toNat_of_nonneg (by omega)
    push_cast
    rw [ht]
    ring
  rw [hlen]
  simp

/-! ## Lemmas about the search and `firstArgmin` -/

theorem firstArgminNe_score_le {α : Type} :
    ∀ (L : List (α × Int)) (p : α × Int),
      (firstArgminNe p L).2 ≤ p.2 ∧ ∀ r ∈ L, (firstArgminNe p L).2 ≤ r.2 := by
  intro L
  induction L with
  | nil => intro p; simp [firstArgminNe]
  | cons q rest ih =>
    intro p
    simp only [firstArgminNe]
    obtain ⟨h1, h2⟩ := ih q
    constructor
    · split
      · exact le_refl _
      · rename_i hn; omega
    · intro r hr
      rcases List.mem_cons.mp hr with rfl | hr'
      · split
        · rename_i hy; omega
        · exact h1
      · have := h2 r hr'
        split
        · rename_i hy; omega
        · exact this

theorem firstArgminNe_mem {α : Type} :
    ∀ (L : List (α × Int)) (p : α × Int), firstArgminNe p L ∈ p :: L := by
  intro L
  induction L with
  | nil => intro p; simp [firstArgminNe]
  | cons q rest ih =>
    intro p
    simp only [firstArgminNe]
    split
    · exact List.mem_cons_self _ _
    · exact List.mem_cons_of_mem p (ih q)

theorem firstArgminNe_drop {α : Type} {i c : α × Int} {L : List (α × Int)}
    (h : i.2 ≤ c.2) : firstArgminNe i (c :: L) = firstArgminNe i L := by
  cases L with
  | nil =>
    rw [firstArgminNe, firstArgminNe]
    simp only [firstArgminNe]
    rw [if_pos h]
  | cons d L' =>
    rw [firstArgminNe, firstArgminNe]
    simp only [firstArgminNe]
    by_cases hcb : c.2 ≤ (firstArgminNe d L').2
    · rw [if_pos hcb, if_pos (by omega), if_pos (by omega)]
    · rw [if_neg hcb]

theorem firstArgminNe_lt {α : Type} {i c : α × Int} {L : List (α × Int)}
    (h : c.2 < i.2) : firstArgminNe i (c :: L) = firstArgminNe c L := by
  simp only [firstArgminNe]
  have hle := (firstArgminNe_score_le L c).1
  rw [if_neg (by omega)]

theorem firstArgminNe_const {α : Type} (cv : Int) :
    ∀ (L : List (α × Int)) (p : α × Int), p.2 = cv → (∀ r ∈ L, r.2 = cv) →
      firstArgminNe p L = p := by
  intro L
  induction L with
  | nil => intro p _ _; rfl
  | cons q rest ih =>
    intro p h0 hL
    simp only [firstArgminNe]
    rw [ih q (hL q (List.mem_cons_self q rest)) (fun r hr => hL r (List.mem_cons_of_mem q hr))]
    rw [if_pos (by rw [h0, hL q (List.mem_cons_self q rest)])]

theorem firstArgminNe_unique_zero {α : Type} :
    ∀ (L : List (α × Int)) (p : α × Int) (a : α),
      (∀ r ∈ p :: L, 0 ≤ r.2) → (a, 0) ∈ p :: L →
      (∀ r ∈ p :: L, r.2 = 0 → r.1 = a) → firstArgminNe p L = (a, 0) := by
  intro L
  induction L with
  | nil =>
    intro p a _ hmem huniq
    simp only [List.mem_cons, List.not_mem_nil, or_false] at hmem
    rw [firstArgminNe, ← hmem]
  | cons q rest ih =>
    intro p a hpos hmem huniq
    simp only [firstArgminNe]
    by_cases hp : p.2 = 0
    · have hpa : p.1 = a := huniq p (List.mem_cons_self p _) hp
      have hpeq : p = (a, 0) := by
        obtain ⟨p1, p2⟩ := p
        simp only at hpa hp
        rw [hpa, hp]
      have hbmem := firstArgminNe_mem rest q
      have hb0 : 0 ≤ (firstArgminNe q rest).2 :=
        hpos _ (List.mem_cons_of_mem p hbmem)
      rw [if_pos (by omega), hpeq]
    · have hmem' : (a, 0) ∈ q :: rest := by
        rcases List.mem_cons.mp hmem with heq | h'
        · exact absurd (congrArg Prod.snd heq.symm) hp
        · exact h'
      have hrec := ih q a (fun r hr => hpos r (List.mem_cons_of_mem p hr)) hmem'
        (fun r hr hr0 => huniq r (List.mem_cons_of_mem p hr) hr0)
      have hppos : 0 < p.2 := by
        have := hpos p (List.mem_cons_self p _)
        omega
      rw [hrec, if_neg (by simp only; omega)]

theorem searchLoop_eq_firstArgmin (cfg : MatchConfig) (f1 f2 : Frame) (sx sy : Int) :
    ∀ (l : List (Int × Int)) (mv xx yy : Int),
      (∀ o ∈ l, (match' cfg f1 f2 o.2 o.1 sx sy).isSome) →
      searchLoop cfg f1 f2 sx sy l mv xx yy =
        some ((fun q => (q.2, q.1.1, q.1.2))
          (firstArgminNe ((xx, yy), mv) (l.map (annOffset cfg f1 f2 sx sy)))) := by
  intro l
  induction l with
  | nil => intro mv xx yy _; simp [searchLoop, firstArgminNe]
  | cons c rest ih =>
    intro mv xx yy hAll
    obtain ⟨r, hr⟩ := Option.isSome_iff_exists.mp (hAll c (List.mem_cons_self c rest))
    have hann : annOffset cfg f1 f2 sx sy c =
        ((c.2 + cfg.blockSize.fdiv 2, c.1 + cfg.blockSize.fdiv 2), r.1 - r.2) := by
      unfold annOffset scoreOf
      rw [hr]
      rfl
    rw [searchLoop, hr]
    simp only [List.map_cons, hann]
    by_cases hlt : mv > r.1 - r.2
    · rw [if_pos hlt,
        ih _ _ _ (fun o ho => hAll o (List.mem_cons_of_mem c ho)),
        firstArgminNe_lt (by simp only; omega)]
    · rw [if_neg hlt,
        ih _ _ _ (fun o ho => hAll o (List.mem_cons_of_mem c ho)),
        firstArgminNe_drop (by simp only; omega)]

theorem annOffset_score_nonneg (cfg : MatchConfig) (f1 f2 : Frame) (sx sy : Int)
    (o : Int × Int) (h : (match' cfg f1 f2 o.2 o.1 sx sy).isSome) :
    0 ≤ (annOffset cfg f1 f2 sx sy o).2 := by
  obtain ⟨r, hr⟩ := Option.isSome_iff_exists.mp h
  unfold annOffset scoreOf
  rw [hr]
  simpa using match'_score_nonneg cfg f1 f2 o.2 o.1 sx sy r hr

theorem annOffset_score_le (cfg : MatchConfig) (f1 f2 : Frame) (sx sy : Int)
    (o : Int × Int) (h : (match' cfg f1 f2 o.2 o.1 sx sy).isSome) :
    (annOffset cfg f1 f2 sx sy o).2 ≤ max cfg.mismatchCap 10000000 := by
  obtain ⟨r, hr⟩ := Option.isSome_iff_exists.mp h
  unfold annOffset scoreOf
  rw [hr]
  simpa using match'_score_le cfg f1 f2 o.2 o.1 sx sy r hr

theorem searchOffsets_head (cfg : MatchConfig) (sx sy : Int)
    (hrx : 0 ≤ cfg.rangeX) (hry : 0 ≤ cfg.rangeY) :
    ∃ T, searchOffsets cfg sx sy = (sy - cfg.rangeY, sx - cfg.rangeX) :: T := by
  unfold searchOffsets
  rw [intRange_eq_cons (show sy - cfg.rangeY < sy + cfg.rangeY + 1 by omega),
    List.flatMap_cons,
    intRange_eq_cons (show sx - cfg.rangeX < sx + cfg.rangeX + 1 by omega),
    List.map_cons, List.cons_append]
  exact ⟨_, rfl⟩

/-! ## Claim C10 -/

/-- C10 (confirmed): for a nonnegative block size and a mismatch cap below the
sentinel value, every `some` result of the block-scoring primitive `match'` is
either the sentinel pair `(10000000, 0)` or a feasible pair
`(pixelsVisited, matchedCount)` with `0 ≤ matchedCount ≤ pixelsVisited =
(blockSize+1)^2` and `pixelsVisited - matchedCount ≤ mismatchCap < 10000000`;
hence the sentinel's comparable score strictly exceeds every feasible comparable
score, so in the search an infeasible offset can never displace a feasible one. -/
theorem c10_match_result_invariant (cfg : MatchConfig) (f1 f2 : Frame)
    (sx sy fx fy : Int) (r : Int × Int)
    (hB : 0 ≤ cfg.blockSize) (hcap : cfg.mismatchCap < 10000000)
    (h : match' cfg f1 f2 sx sy fx fy = some r) :
    r = (10000000, 0) ∨
      (0 ≤ r.2 ∧ r.2 ≤ r.1 ∧ r.1 = (cfg.blockSize + 1) ^ 2 ∧
        r.1 - r.2 ≤ cfg.mismatchCap ∧ r.1 - r.2 < 10000000) := by
  rcases match'_counts cfg f1 f2 sx sy fx fy r hB h with hsent | ⟨h1, h2, h3, h4⟩
  · exact Or.inl hsent
  · exact Or.inr ⟨h1, h2, h3, h4, by omega⟩

/-- C10 witness: a full-scan 100% match on a constant 3×3 frame with block size 1. -/
theorem c10_witness :
    ((4, 4) : Int × Int) = (10000000, 0) ∨
      (0 ≤ ((4, 4) : Int × Int).2 ∧ ((4, 4) : Int × Int).2 ≤ ((4, 4) : Int × Int).1 ∧
        ((4, 4) : Int × Int).1 = ((1 : Int) + 1) ^ 2 ∧
        ((4, 4) : Int × Int).1 - ((4, 4) : Int × Int).2 ≤ 10 ∧
        ((4, 4) : Int × Int).1 - ((4, 4) : Int × Int).2 < 10000000) :=
  c10_match_result_invariant ⟨1, 1, 1, 1, 10⟩
    [[(5,5,5),(5,5,5),(5,5,5)],[(5,5,5),(5,5,5),(5,5,5)],[(5,5,5),(5,5,5),(5,5,5)]]
    [[(5,5,5),(5,5,5),(5,5,5)],[(5,5,5),(5,5,5),(5,5,5)],[(5,5,5),(5,5,5),(5,5,5)]]
    0 0 0 0 (4, 4) (by norm_num) (by norm_num) (by decide)

/-! ## Claim C4 -/

/-- C4 counterexample: `match` bounds-checks both windows against the *first*
frame's dimensions only.  With a 2×2 first frame and a 1×1 second frame at
top-left `(0,0)` (block size 1), the second window exceeds the second frame's
bounds, yet the check passes and the scan reads out of bounds of `frame_two`
(an `IndexError`, modelled as `none`) instead of returning the sentinel. -/
theorem c4_counterexample :
    match' ⟨1, 1, 1, 1, 10⟩ [[(0,0,0),(0,0,0)],[(0,0,0),(0,0,0)]] [[(0,0,0)]] 0 0 0 0
        = none ∧
    (none : Option (Int × Int)) ≠ some (10000000, 0) :=
  ⟨by decide, by decide⟩

/-- C4 (amended): the bounds of both sampling windows are checked against the
*first* buffer's dimensions (not each respective buffer): whenever either window
would leave the first buffer, or an anchor is negative, `match` returns the
sentinel without reading any pixel; and when the second buffer has the same
dimensions as the first (both rectangular), no out-of-bounds read occurs. -/
theorem c4_amended (cfg : MatchConfig) (f1 f2 : Frame) (sx sy fx fy : Int) :
    (f1 ≠ [] →
      (fx + cfg.blockSize ≥ frameWidth f1 ∨ fy + cfg.blockSize ≥ frameHeight f1
        ∨ sx + cfg.blockSize ≥ frameWidth f1 ∨ sy + cfg.blockSize ≥ frameHeight f1
        ∨ fx < 0 ∨ fy < 0 ∨ sx < 0 ∨ sy < 0) →
      match' cfg f1 f2 sx sy fx fy = some (10000000, 0)) ∧
    (f1 ≠ [] → Rect f1 → Rect f2 → frameWidth f2 = frameWidth f1 →
      frameHeight f2 = frameHeight f1 → match' cfg f1 f2 sx sy fx fy ≠ none) := by
  constructor
  · intro hne hb
    exact match'_sentinel_of_bounds cfg f1 f2 sx sy fx fy hne hb
  · intro hne h1 h2 hw hh
    exact Option.isSome_iff_ne_none.mp
      (match'_isSome_of_dims cfg f1 f2 sx sy fx fy hne h1 h2 hw hh)

/-- C4 witness: on equal 1×1 frames with block size 1 the window is rejected by
the first-frame bounds check (sentinel), and no read error occurs. -/
theorem c4_witness :
    match' ⟨1, 1, 1, 1, 10⟩ [[(3,3,3)]] [[(3,3,3)]] 0 0 0 0 = some (10000000, 0) ∧
    match' ⟨1, 1, 1, 1, 10⟩ [[(3,3,3)]] [[(3,3,3)]] 0 0 0 0 ≠ none := by
  have h := c4_amended ⟨1, 1, 1, 1, 10⟩ [[(3,3,3)]] [[(3,3,3)]] 0 0 0 0
  refine ⟨h.1 (by decide) (by decide), h.2 (by decide) ?_ ?_ rfl rfl⟩ <;>
    · unfold Rect frameWidth
      decide

/-! ## Claim C1 -/

/-- C1 counterexample: on 1×1 frames with block size 1 every offset of the
search window around `(5,5)` is infeasible (sentinel), yet the search returns
`(4,4)` — the centre derived from the first enumerated offset — not the sentinel
coordinates `(-1,-1)`: the sentinel score 10000000 is *smaller* than the initial
minimum 1000000000, so the very first candidate always captures the minimum. -/
theorem c1_counterexample :
    (∀ o ∈ searchOffsets ⟨1, 1, 1, 1, 10⟩ 5 5,
      match' ⟨1, 1, 1, 1, 10⟩ [[(0,0,0)]] [[(0,0,0)]] o.2 o.1 5 5 = some (10000000, 0)) ∧
    find_position_in_first_image ⟨1, 1, 1, 1, 10⟩ [[(0,0,0)]] [[(0,0,0)]] 5 5 = some (4, 4) ∧
    ((4, 4) : Int × Int) ≠ (-1, -1) :=
  ⟨by decide, by decide, by decide⟩

/-- C1 (amended): when every offset of the (nonempty) search window yields the
sentinel score, `find_position_in_first_image` does *not* return `(-1,-1)`: the
first enumerated offset `(start_y - rangeY, start_x - rangeX)` updates the
tracked minimum (10000000 < 1000000000) and ties never displace it, so the
returned coordinate is that first offset plus half the block size.  In
particular a buffer smaller than the block size yields this coordinate, not a
`NoMatchFound` sentinel. -/
theorem c1_amended (cfg : MatchConfig) (f1 f2 : Frame) (sx sy : Int)
    (hrx : 0 ≤ cfg.rangeX) (hry : 0 ≤ cfg.rangeY)
    (hall : ∀ o ∈ searchOffsets cfg sx sy,
      match' cfg f1 f2 o.2 o.1 sx sy = some (10000000, 0)) :
    find_position_in_first_image cfg f1 f2 sx sy =
      some (sx - cfg.rangeX + cfg.blockSize.fdiv 2,
            sy - cfg.rangeY + cfg.blockSize.fdiv 2) := by
  obtain ⟨T, hT⟩ := searchOffsets_head cfg sx sy hrx hry
  have hscore : ∀ o ∈ searchOffsets cfg sx sy,
      (annOffset cfg f1 f2 sx sy o).2 = 10000000 := by
    intro o ho
    unfold annOffset scoreOf
    rw [hall o ho]
    rfl
  unfold find_position_in_first_image
  rw [searchLoop_eq_firstArgmin cfg f1 f2 sx sy _ _ _ _
    (fun o ho => by rw [hall o ho]; rfl)]
  rw [hT, List.map_cons]
  have h0 : (annOffset cfg f1 f2 sx sy (sy - cfg.rangeY, sx - cfg.rangeX)).2 = 10000000 :=
    hscore _ (by rw [hT]; exact List.mem_cons_self _ _)
  rw [firstArgminNe_lt (by rw [h0]; norm_num)]
  rw [firstArgminNe_const 10000000 _ _ h0 (fun r hr => by
    obtain ⟨o, ho, rfl⟩ := List.mem_map.mp hr
    exact hscore o (by rw [hT]; exact List.mem_cons_of_mem _ ho))]
  rfl

/-- C1 witness: instantiation of the amended claim at the counterexample's data. -/
theorem c1_witness :
    find_position_in_first_image ⟨1, 1, 1, 1, 10⟩ [[(0,0,0)]] [[(0,0,0)]] 5 5 =
      some (5 - 1 + (1 : Int).fdiv 2, 5 - 1 + (1 : Int).fdiv 2) :=
  c1_amended ⟨1, 1, 1, 1, 10⟩ [[(0,0,0)]] [[(0,0,0)]] 5 5 (by norm_num) (by norm_num)
    (by decide)

/-! ## Claim C6 -/

/-- C6 counterexample: on two identical *constant* 3×3 buffers with centre block
fully in bounds at start `(1,1)` (block size 1, so the queried centre is
`(1,1)`), the search returns `(0,0)`: the offset `(0,0)` also attains a 100%
match and, being enumerated first, strictly-`<` tracking keeps it — the returned
coordinate does not equal the queried centre. -/
theorem c6_counterexample :
    match' ⟨1, 1, 1, 1, 10⟩
        [[(5,5,5),(5,5,5),(5,5,5)],[(5,5,5),(5,5,5),(5,5,5)],[(5,5,5),(5,5,5),(5,5,5)]]
        [[(5,5,5),(5,5,5),(5,5,5)],[(5,5,5),(5,5,5),(5,5,5)],[(5,5,5),(5,5,5),(5,5,5)]]
        1 1 1 1 = some (4, 4) ∧
    find_position_in_first_image ⟨1, 1, 1, 1, 10⟩
        [[(5,5,5),(5,5,5),(5,5,5)],[(5,5,5),(5,5,5),(5,5,5)],[(5,5,5),(5,5,5),(5,5,5)]]
        [[(5,5,5),(5,5,5),(5,5,5)],[(5,5,5),(5,5,5),(5,5,5)],[(5,5,5),(5,5,5),(5,5,5)]]
        1 1 = some (0, 0) ∧
    ((0, 0) : Int × Int) ≠ (1 + (1 : Int).fdiv 2, 1 + (1 : Int).fdiv 2) :=
  ⟨by decide, by decide, by decide⟩

/-- C6 (amended): on two identical rectangular buffers with the block fully in
bounds (positive difference threshold, nonnegative cap and search ranges), the
score at offset `(0,0)` is a 100% match `((blockSize+1)^2, (blockSize+1)^2)`
(comparable score 0); and *provided no other offset of the window also attains
comparable score 0*, the search returns the queried centre
`(start + blockSize // 2)`.  (The proviso is forced: the counterexample shows a
constant buffer returns an earlier tying offset instead.) -/
theorem c6_amended (cfg : MatchConfig) (f : Frame) (sx sy : Int)
    (hr : Rect f) (hB : 0 ≤ cfg.blockSize) (hthr : 0 < cfg.diffThreshold)
    (hcap : 0 ≤ cfg.mismatchCap) (hrx : 0 ≤ cfg.rangeX) (hry : 0 ≤ cfg.rangeY)
    (hx0 : 0 ≤ sx) (hy0 : 0 ≤ sy)
    (hxw : sx + cfg.blockSize < frameWidth f) (hyh : sy + cfg.blockSize < frameHeight f)
    (huniq : ∀ o ∈ searchOffsets cfg sx sy, o ≠ (sy, sx) →
      scoreOf cfg f f sx sy o ≠ some 0) :
    match' cfg f f sx sy sx sy =
      some ((cfg.blockSize + 1) ^ 2, (cfg.blockSize + 1) ^ 2) ∧
    find_position_in_first_image cfg f f sx sy =
      some (sx + cfg.blockSize.fdiv 2, sy + cfg.blockSize.fdiv 2) := by
  have hself := match'_self cfg f sx sy hr hB hthr hcap hx0 hy0 hxw hyh
  refine ⟨hself, ?_⟩
  have hne : f ≠ [] := by
    intro hnil
    rw [hnil] at hyh
    unfold frameHeight at hyh
    simp only [List.length_nil, Nat.cast_zero] at hyh
    omega
  have hsome : ∀ o ∈ searchOffsets cfg sx sy, (match' cfg f f o.2 o.1 sx sy).isSome :=
    fun o _ => match'_isSome_of_dims cfg f f o.2 o.1 sx sy hne hr hr rfl rfl
  have hcmem : (sy, sx) ∈ searchOffsets cfg sx sy := by
    rw [mem_searchOffsets]
    refine ⟨by omega, by omega, by omega, by omega⟩
  have hcann : annOffset cfg f f sx sy (sy, sx) =
      ((sx + cfg.blockSize.fdiv 2, sy + cfg.blockSize.fdiv 2), 0) := by
    unfold annOffset scoreOf
    rw [hself]
    simp
  unfold find_position_in_first_image
  rw [searchLoop_eq_firstArgmin cfg f f sx sy _ _ _ _ hsome]
  rw [firstArgminNe_unique_zero _ _ (sx + cfg.blockSize.fdiv 2, sy + cfg.blockSize.fdiv 2)
    ?hpos ?hmem ?huz]
  · rfl
  case hpos =>
    intro r hrr
    rcases List.mem_cons.mp hrr with rfl | hr'
    · norm_num
    · obtain ⟨o, ho, rfl⟩ := List.mem_map.mp hr'
      exact annOffset_score_nonneg cfg f f sx sy o (hsome o ho)
  case hmem =>
    refine List.mem_cons_of_mem _ ?_
    rw [← hcann]
    exact List.mem_map_of_mem _ hcmem
  case huz =>
    intro r hrr hr0
    rcases List.mem_cons.mp hrr with rfl | hr'
    · norm_num at hr0
    · obtain ⟨o, ho, rfl⟩ := List.mem_map.mp hr'
      by_cases heq : o = (sy, sx)
      · rw [heq, hcann]
      · exfalso
        obtain ⟨rr, hrr'⟩ := Option.isSome_iff_exists.mp (hsome o ho)
        have hsc : scoreOf cfg f f sx sy o = some (rr.1 - rr.2) := by
          unfold scoreOf
          rw [hrr']
          rfl
        have hann0 : (annOffset cfg f f sx sy o).2 = rr.1 - rr.2 := by
          unfold annOffset
          rw [hsc]
          rfl
        exact huniq o ho heq (by rw [hsc, ← hann0, hr0])

/-- C6 witness: a 3×3 buffer with pairwise distinct pixels makes `(0,0)` the
unique zero-score offset, so the amended claim returns the queried centre. -/
theorem c6_witness :
    match' ⟨1, 1, 1, 1, 10⟩
        [[(0,0,0),(10,0,0),(20,0,0)],[(30,0,0),(40,0,0),(50,0,0)],[(60,0,0),(70,0,0),(80,0,0)]]
        [[(0,0,0),(10,0,0),(20,0,0)],[(30,0,0),(40,0,0),(50,0,0)],[(60,0,0),(70,0,0),(80,0,0)]]
        1 1 1 1 = some (((1 : Int) + 1) ^ 2, ((1 : Int) + 1) ^ 2) ∧
    find_position_in_first_image ⟨1, 1, 1, 1, 10⟩
        [[(0,0,0),(10,0,0),(20,0,0)],[(30,0,0),(40,0,0),(50,0,0)],[(60,0,0),(70,0,0),(80,0,0)]]
        [[(0,0,0),(10,0,0),(20,0,0)],[(30,0,0),(40,0,0),(50,0,0)],[(60,0,0),(70,0,0),(80,0,0)]]
        1 1 = some (1 + (1 : Int).fdiv 2, 1 + (1 : Int).fdiv 2) :=
  c6_amended ⟨1, 1, 1, 1, 10⟩
    [[(0,0,0),(10,0,0),(20,0,0)],[(30,0,0),(40,0,0),(50,0,0)],[(60,0,0),(70,0,0),(80,0,0)]]
    1 1 (by unfold Rect frameWidth; decide) (by norm_num) (by norm_num) (by norm_num)
    (by norm_num) (by norm_num) (by norm_num) (by norm_num)
    (by unfold frameWidth; decide) (by unfold frameHeight; decide) (by decide)

/-! ## Claim C8 -/

/-- C8 (confirmed): whenever every candidate offset scores without error and the
mismatch cap is below the initial minimum 1000000000, the search returns exactly
the centre of the *first* entry attaining the minimum comparable score in
row-major `(y, x)` enumeration order (`firstArgmin` — the spec's reference
tie-break, which replaces the tracked minimum only on a strictly smaller score);
in particular the result is a deterministic function of its inputs. -/
theorem c8_first_minimum (cfg : MatchConfig) (f1 f2 : Frame) (sx sy : Int)
    (hrx : 0 ≤ cfg.rangeX) (hry : 0 ≤ cfg.rangeY) (hcap : cfg.mismatchCap < 1000000000)
    (hsome : ∀ o ∈ searchOffsets cfg sx sy, (match' cfg f1 f2 o.2 o.1 sx sy).isSome) :
    find_position_in_first_image cfg f1 f2 sx sy =
      (firstArgmin (scoredCenters cfg f1 f2 sx sy)).map (fun q => q.1) := by
  obtain ⟨T, hT⟩ := searchOffsets_head cfg sx sy hrx hry
  unfold find_position_in_first_image scoredCenters
  rw [searchLoop_eq_firstArgmin cfg f1 f2 sx sy _ _ _ _ hsome]
  rw [hT, List.map_cons]
  have hhd : (sy - cfg.rangeY, sx - cfg.rangeX) ∈ searchOffsets cfg sx sy := by
    rw [hT]
    exact List.mem_cons_self _ _
  have hlt : (annOffset cfg f1 f2 sx sy (sy - cfg.rangeY, sx - cfg.rangeX)).2 <
      (((-1 : Int), (-1 : Int)), (1000000000 : Int)).2 := by
    have h1 := annOffset_score_le cfg f1 f2 sx sy _ (hsome _ hhd)
    simp only at h1 ⊢
    have : max cfg.mismatchCap 10000000 < 1000000000 := by
      rw [max_lt_iff]
      constructor
      · exact hcap
      · norm_num
    omega
  rw [firstArgminNe_lt hlt]
  rw [firstArgmin]
  rfl

/-- C8 witness: constant 3×3 identical buffers tie at score 0 on several
offsets; the search result coincides with the `firstArgmin` reference. -/
theorem c8_witness :
    find_position_in_first_image ⟨1, 1, 1, 1, 10⟩
        [[(5,5,5),(5,5,5),(5,5,5)],[(5,5,5),(5,5,5),(5,5,5)],[(5,5,5),(5,5,5),(5,5,5)]]
        [[(5,5,5),(5,5,5),(5,5,5)],[(5,5,5),(5,5,5),(5,5,5)],[(5,5,5),(5,5,5),(5,5,5)]]
        1 1 =
      (firstArgmin (scoredCenters ⟨1, 1, 1, 1, 10⟩
        [[(5,5,5),(5,5,5),(5,5,5)],[(5,5,5),(5,5,5),(5,5,5)],[(5,5,5),(5,5,5),(5,5,5)]]
        [[(5,5,5),(5,5,5),(5,5,5)],[(5,5,5),(5,5,5),(5,5,5)],[(5,5,5),(5,5,5),(5,5,5)]]
        1 1)).map (fun q => q.1) :=
  c8_first_minimum ⟨1, 1, 1, 1, 10⟩
    [[(5,5,5),(5,5,5),(5,5,5)],[(5,5,5),(5,5,5),(5,5,5)],[(5,5,5),(5,5,5),(5,5,5)]]
    [[(5,5,5),(5,5,5),(5,5,5)],[(5,5,5),(5,5,5),(5,5,5)],[(5,5,5),(5,5,5),(5,5,5)]]
    1 1 (by norm_num) (by norm_num) (by norm_num) (by decide)

/-! ## Lemmas about the perturbation pass and the fill pass -/

theorem maskPixel_get_self (tex : Frame) (texW texH dx dy thr : Int) (f : Frame) (y x : Int) :
    getE (maskPixel tex texW texH dx dy thr f (y, x)) y x =
      maskExpected tex texW texH dx dy thr y x (getE f y x) := by
  by_cases hb : 0 ≤ x + dx ∧ x + dx < texW ∧ 0 ≤ y + dy ∧ y + dy < texH
  · cases hfp : getE f y x with
    | none =>
      cases hq : getE tex (y + dy) (x + dx) with
      | none => simp [maskPixel, maskExpected, hfp, hq, hb]
      | some q => simp [maskPixel, maskExpected, hfp, hq, hb]
    | some p =>
      cases hq : getE tex (y + dy) (x + dx) with
      | none => simp [maskPixel, maskExpected, hfp, hq, hb]
      | some q =>
        by_cases hd : colorDist p q < thr
        · simp only [maskPixel, maskExpected, hfp, hq, hb, hd, and_self, if_true]
          exact getE_setPx_self (by rw [hfp]; rfl)
        · simp [maskPixel, maskExpected, hfp, hq, hb, hd]
  · cases hfp : getE f y x with
    | none => simp [maskPixel, maskExpected, hfp, hb]
    | some p => simp [maskPixel, maskExpected, hfp, hb]

theorem maskPixel_get_other (tex : Frame) (texW texH dx dy thr : Int) (f : Frame)
    (c : Int × Int) (y' x' : Int) (hne : (y', x') ≠ c) :
    getE (maskPixel tex texW texH dx dy thr f c) y' x' = getE f y' x' := by
  by_cases hb : 0 ≤ c.2 + dx ∧ c.2 + dx < texW ∧ 0 ≤ c.1 + dy ∧ c.1 + dy < texH
  · cases hfp : getE f c.1 c.2 with
    | none => simp [maskPixel, hfp, hb]
    | some p =>
      cases hq : getE tex (c.1 + dy) (c.2 + dx) with
      | none => simp [maskPixel, hfp, hq, hb]
      | some q =>
        by_cases hd : colorDist p q < thr
        · simp only [maskPixel, hfp, hq, hb, hd, and_self, if_true]
          exact getE_setPx_ne hne
        · simp [maskPixel, hfp, hq, hb, hd]
  · simp [maskPixel, hb]

theorem foldl_maskPixel_get (tex : Frame) (texW texH dx dy thr : Int) :
    ∀ (L : List (Int × Int)), L.Nodup → ∀ (f : Frame) (y x : Int),
      getE (L.foldl (maskPixel tex texW texH dx dy thr) f) y x =
        if (y, x) ∈ L then maskExpected tex texW texH dx dy thr y x (getE f y x)
        else getE f y x := by
  intro L
  induction L with
  | nil => intro _ f y x; simp
  | cons c rest ih =>
    intro hnd f y x
    obtain ⟨hc, hnd'⟩ := List.nodup_cons.mp hnd
    rw [List.foldl_cons]
    by_cases hcase : ((y, x) : Int × Int) = c
    · rw [ih hnd' _ y x, if_neg (by rw [hcase]; exact hc)]
      rw [← hcase, maskPixel_get_self]
      rw [if_pos (List.mem_cons_self _ _)]
    · rw [ih hnd' _ y x, maskPixel_get_other tex texW texH dx dy thr f c y x hcase]
      have hmem : ((y, x) ∈ c :: rest) ↔ ((y, x) ∈ rest) := by
        rw [List.mem_cons]
        exact or_iff_right hcase
      rw [if_congr hmem rfl rfl]

theorem maskPass_get (f tex : Frame) (texW texH dx dy thr y x : Int) :
    getE (maskPass f tex texW texH dx dy thr) y x =
      if 0 ≤ y ∧ y < frameHeight f ∧ 0 ≤ x ∧ x < frameWidth f then
        maskExpected tex texW texH dx dy thr y x (getE f y x)
      else getE f y x := by
  unfold maskPass
  rw [foldl_maskPixel_get tex texW texH dx dy thr _ gridCoords_nodup f y x]
  exact if_congr gridCoords_mem rfl rfl

/-! ## Claim C9 -/

/-- C9 (confirmed): for every pixel of the buffer processed by the perturbation
pass (the spec's OutsideMasker): if the offset sample is within the texture
bounds and the Manhattan distance is strictly below the threshold, the pixel is
overwritten with the sample's colour except the first channel changed by exactly
one (decremented when the sample's first channel is 255, incremented otherwise,
so for 8-bit samples the result stays in `[0,255]` and differs from the sample);
if the sample is out of bounds or the distance is at least the threshold, the
pixel is untouched. -/
theorem c9_outside_masker_pixel (f tex : Frame) (texW texH dx dy thr y x : Int)
    (hy : 0 ≤ y ∧ y < frameHeight f) (hx : 0 ≤ x ∧ x < frameWidth f) :
    (∀ p q, getE f y x = some p → getE tex (y + dy) (x + dx) = some q →
      0 ≤ x + dx → x + dx < texW → 0 ≤ y + dy → y + dy < texH →
      colorDist p q < thr →
      getE (maskPass f tex texW texH dx dy thr) y x =
          some (perturbR q.1, q.2.1, q.2.2) ∧
        (0 ≤ q.1 → q.1 ≤ 255 → 0 ≤ perturbR q.1 ∧ perturbR q.1 ≤ 255) ∧
        perturbR q.1 ≠ q.1) ∧
    (∀ p, getE f y x = some p →
      (¬(0 ≤ x + dx ∧ x + dx < texW ∧ 0 ≤ y + dy ∧ y + dy < texH) ∨
        (∀ q, getE tex (y + dy) (x + dx) = some q → thr ≤ colorDist p q)) →
      getE (maskPass f tex texW texH dx dy thr) y x = some p) := by
  constructor
  · intro p q hp hq hb1 hb2 hb3 hb4 hd
    refine ⟨?_, ?_, ?_⟩
    · rw [maskPass_get, if_pos ⟨hy.1, hy.2, hx.1, hx.2⟩, hp]
      simp [maskExpected, hq, hb1, hb2, hb3, hb4, hd]
    · intro h0 h255
      unfold perturbR
      split <;> omega
    · unfold perturbR
      split <;> omega
  · intro p hp hcond
    rw [maskPass_get, if_pos ⟨hy.1, hy.2, hx.1, hx.2⟩, hp]
    rcases hcond with hb | hfar
    · simp [maskExpected, hb]
    · by_cases hb : 0 ≤ x + dx ∧ x + dx < texW ∧ 0 ≤ y + dy ∧ y + dy < texH
      · cases hq : getE tex (y + dy) (x + dx) with
        | none => simp [maskExpected, hb, hq]
        | some q =>
          have hd : ¬colorDist p q < thr := by
            have := hfar q hq
            omega
          simp [maskExpected, hb, hq, hd]
      · simp [maskExpected, hb]

/-- C9 witness: a 1×1 buffer equal to its sample is rewritten to the sample with
first channel incremented (9 → 10), in range and distinct from the sample. -/
theorem c9_witness :
    getE (maskPass [[(9, 9, 9)]] [[(9, 9, 9)]] 1 1 0 0 1) 0 0 =
        some (perturbR 9, 9, 9) ∧
      (0 ≤ perturbR 9 ∧ perturbR 9 ≤ 255) ∧ perturbR 9 ≠ 9 := by
  have h := (c9_outside_masker_pixel [[(9, 9, 9)]] [[(9, 9, 9)]] 1 1 0 0 1 0 0
    (by unfold frameHeight; norm_num) (by unfold frameWidth; norm_num)).1
    (9, 9, 9) (9, 9, 9) (by decide) (by decide) (by norm_num) (by norm_num)
    (by norm_num) (by norm_num) (by decide)
  exact ⟨h.1, h.2.1 (by norm_num) (by norm_num), h.2.2⟩

/-! ## Claim C2 -/

unseal Rat.mul Rat.inv Rat.add Rat.sub in
/-- C2 counterexample: the perturbation pass consults no polygon.  On a constant
5×5 buffer filled against itself (offset `(0,0)`, threshold 1) with the square
polygon `[(0,0),(4,0),(4,4),(0,4)]`, the pixel `(x,y) = (2,1)` lies strictly
inside the polygon, yet the perturbation pass modifies it (first channel
100 → 101), and the fill pass of `manual_fill_polygon` then modifies it again
(back to the texture value 100): the same pixel is modified twice, so the inside
fill set and the perturbation set are not disjoint. -/
theorem c2_counterexample :
    getE (maskPass
        [[(100,100,100),(100,100,100),(100,100,100),(100,100,100),(100,100,100)],
         [(100,100,100),(100,100,100),(100,100,100),(100,100,100),(100,100,100)],
         [(100,100,100),(100,100,100),(100,100,100),(100,100,100),(100,100,100)],
         [(100,100,100),(100,100,100),(100,100,100),(100,100,100),(100,100,100)],
         [(100,100,100),(100,100,100),(100,100,100),(100,100,100),(100,100,100)]]
        [[(100,100,100),(100,100,100),(100,100,100),(100,100,100),(100,100,100)],
         [(100,100,100),(100,100,100),(100,100,100),(100,100,100),(100,100,100)],
         [(100,100,100),(100,100,100),(100,100,100),(100,100,100),(100,100,100)],
         [(100,100,100),(100,100,100),(100,100,100),(100,100,100),(100,100,100)],
         [(100,100,100),(100,100,100),(100,100,100),(100,100,100),(100,100,100)]]
        5 5 0 0 1) 1 2 = some (101, 100, 100) ∧
    some ((101 : Int), (100 : Int), (100 : Int)) ≠ some ((100 : Int), 100, 100) ∧
    getE (manual_fill_polygon
        [[(100,100,100),(100,100,100),(100,100,100),(100,100,100),(100,100,100)],
         [(100,100,100),(100,100,100),(100,100,100),(100,100,100),(100,100,100)],
         [(100,100,100),(100,100,100),(100,100,100),(100,100,100),(100,100,100)],
         [(100,100,100),(100,100,100),(100,100,100),(100,100,100),(100,100,100)],
         [(100,100,100),(100,100,100),(100,100,100),(100,100,100),(100,100,100)]]
        [(0, 0), (4, 0), (4, 4), (0, 4)]
        [[(100,100,100),(100,100,100),(100,100,100),(100,100,100),(100,100,100)],
         [(100,100,100),(100,100,100),(100,100,100),(100,100,100),(100,100,100)],
         [(100,100,100),(100,100,100),(100,100,100),(100,100,100),(100,100,100)],
         [(100,100,100),(100,100,100),(100,100,100),(100,100,100),(100,100,100)],
         [(100,100,100),(100,100,100),(100,100,100),(100,100,100),(100,100,100)]]
        5 5 0 0 1) 1 2 = some (100, 100, 100) :=
  ⟨by decide, by decide, by decide⟩

/-- C2 (amended): the perturbation pass ranges over the whole buffer and ignores
the polygon entirely: a pixel is modified only when its offset sample is within
the texture bounds and the Manhattan distance to the sample is below the
threshold, regardless of its position relative to the polygon.  Consequently a
pixel inside the polygon can be modified both by the perturbation pass and by
the fill pass (the claimed disjointness fails, see the counterexample). -/
theorem c2_amended (f tex : Frame) (texW texH dx dy thr y x : Int)
    (hmod : getE (maskPass f tex texW texH dx dy thr) y x ≠ getE f y x) :
    (0 ≤ x + dx ∧ x + dx < texW ∧ 0 ≤ y + dy ∧ y + dy < texH) ∧
    ∃ p q, getE f y x = some p ∧ getE tex (y + dy) (x + dx) = some q ∧
      colorDist p q < thr := by
  rw [maskPass_get] at hmod
  by_cases hgrid : 0 ≤ y ∧ y < frameHeight f ∧ 0 ≤ x ∧ x < frameWidth f
  · rw [if_pos hgrid] at hmod
    cases hp : getE f y x with
    | none => rw [hp] at hmod; simp [maskExpected] at hmod
    | some p =>
      rw [hp] at hmod
      by_cases hb : 0 ≤ x + dx ∧ x + dx < texW ∧ 0 ≤ y + dy ∧ y + dy < texH
      · cases hq : getE tex (y + dy) (x + dx) with
        | none => simp [maskExpected, hb, hq] at hmod
        | some q =>
          by_cases hd : colorDist p q < thr
          · exact ⟨hb, p, q, rfl, rfl, hd⟩
          · simp [maskExpected, hb, hq, hd] at hmod
      · simp [maskExpected, hb] at hmod
  · rw [if_neg hgrid] at hmod
    exact absurd rfl hmod

/-- C2 witness: instantiation of the amended claim on a 1×1 buffer whose pixel
is modified, yielding the in-bounds near-duplicate sample. -/
theorem c2_witness :
    ((0 : Int) ≤ 0 + 0 ∧ (0 : Int) + 0 < 1 ∧ (0 : Int) ≤ 0 + 0 ∧ (0 : Int) + 0 < 1) ∧
    ∃ p q, getE [[((9 : Int), (9 : Int), (9 : Int))]] 0 0 = some p ∧
      getE [[((9 : Int), (9 : Int), (9 : Int))]] (0 + 0) (0 + 0) = some q ∧
      colorDist p q < 1 :=
  c2_amended [[(9, 9, 9)]] [[(9, 9, 9)]] 1 1 0 0 1 0 0 (by decide)

theorem fillSpanStep_get_self (tex : Frame) (texW texH dx dy y : Int) (f : Frame) (x : Int) :
    getE (fillSpanStep tex texW texH dx dy y f x) y x =
      fillExpected tex texW texH dx dy y x (getE f y x) := by
  by_cases hb : 0 ≤ x + dx ∧ x + dx < texW ∧ 0 ≤ y + dy ∧ y + dy < texH
  · cases hq : getE tex (y + dy) (x + dx) with
    | none =>
      cases hfp : getE f y x with
      | none => simp [fillSpanStep, fillExpected, hb, hq, hfp]
      | some p => simp [fillSpanStep, fillExpected, hb, hq, hfp]
    | some q =>
      cases hfp : getE f y x with
      | none =>
        simp only [fillSpanStep, fillExpected, hb, hq, and_self, if_true]
        exact getE_setPx_none hfp
      | some p =>
        simp only [fillSpanStep, fillExpected, hb, hq, and_self, if_true]
        exact getE_setPx_self (by rw [hfp]; rfl)
  · cases hfp : getE f y x with
    | none => simp [fillSpanStep, fillExpected, hb, hfp]
    | some p => simp [fillSpanStep, fillExpected, hb, hfp]

theorem fillSpanStep_get_other (tex : Frame) (texW texH dx dy y : Int) (f : Frame)
    (x y' x' : Int) (hne : (y', x') ≠ (y, x)) :
    getE (fillSpanStep tex texW texH dx dy y f x) y' x' = getE f y' x' := by
  by_cases hb : 0 ≤ x + dx ∧ x + dx < texW ∧ 0 ≤ y + dy ∧ y + dy < texH
  · cases hq : getE tex (y + dy) (x + dx) with
    | none => simp [fillSpanStep, hb, hq]
    | some q =>
      simp only [fillSpanStep, hb, hq, and_self, if_true]
      exact getE_setPx_ne hne
  · simp [fillSpanStep, hb]

theorem foldl_fillSpanStep_get (tex : Frame) (texW texH dx dy y : Int) :
    ∀ (xs : List Int), xs.Nodup → ∀ (f : Frame) (y' x' : Int),
      getE (xs.foldl (fillSpanStep tex texW texH dx dy y) f) y' x' =
        if y' = y ∧ x' ∈ xs then fillExpected tex texW texH dx dy y x' (getE f y' x')
        else getE f y' x' := by
  intro xs
  induction xs with
  | nil => intro _ f y' x'; simp
  | cons x0 rest ih =>
    intro hnd f y' x'
    obtain ⟨hx0, hnd'⟩ := List.nodup_cons.mp hnd
    rw [List.foldl_cons]
    by_cases hcase : y' = y ∧ x' = x0
    · obtain ⟨rfl, rfl⟩ := hcase
      rw [ih hnd' _ y' x', if_neg (fun hk => hx0 hk.2)]
      rw [fillSpanStep_get_self]
      rw [if_pos ⟨rfl, List.mem_cons_self _ _⟩]
    · have hne : ((y', x') : Int × Int) ≠ (y, x0) := by
        intro h
        injection h with h1 h2
        exact hcase ⟨h1, h2⟩
      rw [ih hnd' _ y' x', fillSpanStep_get_other tex texW texH dx dy y f x0 y' x' hne]
      have hmem : (y' = y ∧ x' ∈ x0 :: rest) ↔ (y' = y ∧ x' ∈ rest) := by
        rw [List.mem_cons]
        constructor
        · rintro ⟨h1, h2 | h3⟩
          · exact absurd ⟨h1, h2⟩ hcase
          · exact ⟨h1, h3⟩
        · rintro ⟨h1, h2⟩
          exact ⟨h1, Or.inr h2⟩
      rw [if_congr hmem rfl rfl]

theorem pairFill_get (tex : Frame) (texW texH dx dy w y : Int) (f : Frame) (i0 i1 : ℚ)
    (y' x' : Int) :
    getE (pairFill tex texW texH dx dy w y f i0 i1) y' x' =
      if y' = y ∧ max 0 (pythonRound i0) + 1 ≤ x' ∧ x' < min (w - 1) (pythonRound i1) then
        fillExpected tex texW texH dx dy y x' (getE f y' x')
      else getE f y' x' := by
  unfold pairFill
  rw [foldl_fillSpanStep_get tex texW texH dx dy y _ intRange_nodup f y' x']
  refine if_congr (and_congr_right fun _ => ?_) rfl rfl
  exact mem_intRange

/-! ## Claim C3 -/

unseal Rat.mul Rat.inv Rat.add Rat.sub in
/-- C3 counterexample: filling the square `[(0,0),(4,0),(4,4),(0,4)]` on a 5×5
buffer from a 5×5 texture at offset `(0,0)`: scanline `y = 1` has sorted
intersections `[0, 4]`, so per the claim every `x` from `round(0) = 0` to
`round(4) = 4` inclusive is filled and its in-bounds sample copied — but the
code loops `range(x_start + 1, x_end)`, so the boundary pixel `(0,1)` keeps its
original colour (is not copied) while `(1,1)` is. -/
theorem c3_counterexample :
    getE (fillPass
        [[(10,20,30),(10,20,30),(10,20,30),(10,20,30),(10,20,30)],
         [(10,20,30),(10,20,30),(10,20,30),(10,20,30),(10,20,30)],
         [(10,20,30),(10,20,30),(10,20,30),(10,20,30),(10,20,30)],
         [(10,20,30),(10,20,30),(10,20,30),(10,20,30),(10,20,30)],
         [(10,20,30),(10,20,30),(10,20,30),(10,20,30),(10,20,30)]]
        [(0, 0), (4, 0), (4, 4), (0, 4)]
        [[(50,60,70),(50,60,70),(50,60,70),(50,60,70),(50,60,70)],
         [(50,60,70),(50,60,70),(50,60,70),(50,60,70),(50,60,70)],
         [(50,60,70),(50,60,70),(50,60,70),(50,60,70),(50,60,70)],
         [(50,60,70),(50,60,70),(50,60,70),(50,60,70),(50,60,70)],
         [(50,60,70),(50,60,70),(50,60,70),(50,60,70),(50,60,70)]]
        5 5 0 0) 1 0 = some (10, 20, 30) ∧
    some ((10 : Int), (20 : Int), (30 : Int)) ≠ some ((50 : Int), (60 : Int), (70 : Int)) ∧
    getE (fillPass
        [[(10,20,30),(10,20,30),(10,20,30),(10,20,30),(10,20,30)],
         [(10,20,30),(10,20,30),(10,20,30),(10,20,30),(10,20,30)],
         [(10,20,30),(10,20,30),(10,20,30),(10,20,30),(10,20,30)],
         [(10,20,30),(10,20,30),(10,20,30),(10,20,30),(10,20,30)],
         [(10,20,30),(10,20,30),(10,20,30),(10,20,30),(10,20,30)]]
        [(0, 0), (4, 0), (4, 4), (0, 4)]
        [[(50,60,70),(50,60,70),(50,60,70),(50,60,70),(50,60,70)],
         [(50,60,70),(50,60,70),(50,60,70),(50,60,70),(50,60,70)],
         [(50,60,70),(50,60,70),(50,60,70),(50,60,70),(50,60,70)],
         [(50,60,70),(50,60,70),(50,60,70),(50,60,70),(50,60,70)],
         [(50,60,70),(50,60,70),(50,60,70),(50,60,70),(50,60,70)]]
        5 5 0 0) 1 1 = some (50, 60, 70) :=
  ⟨by decide, by decide, by decide⟩

/-- C3 (amended): for every scanline the fill pass sorts the edge intersections
ascending (by definition of `scanlineFill`, with `insertionSort` producing a
sorted permutation, stated below) and consumes them in pairs `(0,1), (2,3), …`;
for each pair `(i0, i1)` it writes exactly the columns `x` with
`max(0, round(i0)) + 1 ≤ x < min(width - 1, round(i1))` — i.e. strictly between
the clamped rounded endpoints, *not* the inclusive range of the claim — and each
written pixel receives the source sample at `(x, y) + offset` when that sample is
within the source bounds, and is left unmodified otherwise (`fillExpected`). -/
theorem c3_pair_fill_range (vertices : List (Int × Int)) (tex : Frame)
    (texW texH dx dy w y : Int) (f : Frame) (i0 i1 : ℚ) (y' x' : Int) (yy : Int) :
    (getE (pairFill tex texW texH dx dy w y f i0 i1) y' x' =
      if y' = y ∧ max 0 (pythonRound i0) + 1 ≤ x' ∧ x' < min (w - 1) (pythonRound i1) then
        fillExpected tex texW texH dx dy y x' (getE f y' x')
      else getE f y' x') ∧
    List.Sorted (fun a b => a ≤ b)
      (List.insertionSort (fun a b => a ≤ b) (edgeIntersections vertices yy)) ∧
    (List.insertionSort (fun a b => a ≤ b) (edgeIntersections vertices yy)).Perm
      (edgeIntersections vertices yy) := by
  refine ⟨pairFill_get tex texW texH dx dy w y f i0 i1 y' x', ?_, ?_⟩
  · exact List.sorted_insertionSort _ _
  · exact List.perm_insertionSort _ _

/-! ## Lemmas about the blur -/

theorem intRange_eq_nil {a b : Int} (h : b ≤ a) : intRange a b = [] := by
  unfold intRange
  rw [show (b - a).toNat = 0 by omega]
  rfl

theorem gaussian_kernel_zero_default (e : ℚ → ℚ) : gaussian_kernel e 0 none = none := by
  have hxs : intRange (-(0 : Int)) ((0 : Int) + 1) = [0] := by decide
  simp only [gaussian_kernel, Option.getD, hxs]
  norm_num

theorem gaussian_kernel_neg (e : ℚ → ℚ) (radius : Int) (h : radius < 0) :
    gaussian_kernel e radius none = some [] := by
  simp only [gaussian_kernel]
  rw [intRange_eq_nil (by omega)]
  rfl

theorem gaussian_blur_zero (e : ℚ → ℚ) (image : Frame) : gaussian_blur e image 0 = none := by
  cases image with
  | nil => rfl
  | cons row0 rest =>
    simp only [gaussian_blur, List.head?_cons, Option.some_bind,
      gaussian_kernel_zero_default e, Option.none_bind]

theorem seqOpt_replicate {α : Type} (c : α) :
    ∀ n, seqOpt (List.replicate n (some c)) = some (List.replicate n c) := by
  intro n
  induction n with
  | zero => rfl
  | succ k ih => simp [List.replicate, seqOpt, ih]

theorem buildGrid_const {α : Type} (h w : Nat) (c : α) :
    buildGrid h w (fun _ _ => some c) = some (List.replicate h (List.replicate w c)) := by
  unfold buildGrid
  have hrow : seqOpt ((List.range w).map fun _ => some c) = some (List.replicate w c) := by
    rw [List.map_const', List.length_range, seqOpt_replicate]
  simp only [hrow]
  rw [List.map_const', List.length_range, seqOpt_replicate]

theorem pyInt_zero : pyInt 0 = 0 := by
  unfold pyInt
  rw [if_pos le_rfl, Rat.floor_def']
  rfl

theorem gaussian_blur_neg (e : ℚ → ℚ) (radius : Int) (image : Frame)
    (hrad : radius < 0) (hne : image ≠ []) :
    gaussian_blur e image radius =
      some (List.replicate image.length
        (List.replicate (image.headD []).length ((0 : Int), (0 : Int), (0 : Int)))) := by
  cases image with
  | nil => exact absurd rfl hne
  | cons row0 rest =>
    simp only [gaussian_blur, List.head?_cons, Option.some_bind,
      gaussian_kernel_neg e radius hrad]
    rw [show (fun (y x : Nat) =>
        convK (fun k =>
          (getE (row0 :: rest) (y : Int)
            (clampIdx ((x : Int) + (k - radius)) 0 ((row0.length : Int) - 1))).map ratPx)
          ([] : List ℚ) 0 ((0 : ℚ), (0 : ℚ), (0 : ℚ))) =
        (fun _ _ => some ((0 : ℚ), (0 : ℚ), (0 : ℚ))) from rfl]
    rw [buildGrid_const, Option.some_bind]
    rw [show (fun (y x : Nat) =>
        convK (fun k =>
          getE (List.replicate (row0 :: rest).length
              (List.replicate row0.length ((0 : ℚ), (0 : ℚ), (0 : ℚ))))
            (clampIdx ((y : Int) + (k - radius)) 0 (((row0 :: rest).length : Int) - 1)) (x : Int))
          ([] : List ℚ) 0 ((0 : ℚ), (0 : ℚ), (0 : ℚ))) =
        (fun _ _ => some ((0 : ℚ), (0 : ℚ), (0 : ℚ))) from rfl]
    rw [buildGrid_const]
    simp [List.map_replicate, pyInt_zero]

theorem gaussian_kernel_zero_sigma (e : ℚ → ℚ) (σ : ℚ) (hσ : σ ≠ 0) (he : e 0 ≠ 0) :
    gaussian_kernel e 0 (some σ) = some [1] := by
  have hxs : intRange (-(0 : Int)) ((0 : Int) + 1) = [0] := by decide
  simp only [gaussian_kernel, Option.getD, hxs]
  rw [if_neg (by simp), if_neg hσ]
  have harg : -((0 : ℚ)) ^ 2 / (2 * σ ^ 2) = 0 := by norm_num
  have hlist : (do let a ← ([0] : List Int); (pure (a : ℚ) : List ℚ)) = [(0 : ℚ)] := by
    decide
  rw [hlist]
  simp only [List.map_cons, List.map_nil, harg, List.sum_cons, List.sum_nil, add_zero]
  rw [if_neg he, div_self he]

/-! ## Claim C5 -/

/-- C5 counterexample: at radius 0 the default sigma is `0 / 2 = 0`, so the
kernel computation divides by zero (`ZeroDivisionError`, modelled `none`) instead
of producing `[1.0]`, and the blur of any buffer at radius 0 fails instead of
returning the input (shown for the abstract-exponential instance `fun _ => 1`;
the division by zero precedes any use of `exp`). -/
theorem c5_counterexample :
    gaussian_kernel (fun _ => 1) 0 none = none ∧
    gaussian_blur (fun _ => 1) [[(42, 42, 42)]] 0 = none ∧
    (none : Option Frame) ≠ some [[(42, 42, 42)]] :=
  ⟨gaussian_kernel_zero_default _, gaussian_blur_zero _ _, by decide⟩

/-- C5 (amended): radius 0 with the *default* sigma (`radius / 2 = 0`) makes the
kernel's exponent divide by zero, so `gaussian_blur` at radius 0 always fails
(`none`) rather than returning its input; the claimed kernel `[1.0]` arises only
when an explicit nonzero sigma is supplied (for any exponential with
`exp 0 ≠ 0`). -/
theorem c5_amended (e : ℚ → ℚ) (image : Frame) (σ : ℚ) (hσ : σ ≠ 0) (he : e 0 ≠ 0) :
    gaussian_blur e image 0 = none ∧ gaussian_kernel e 0 (some σ) = some [1] :=
  ⟨gaussian_blur_zero e image, gaussian_kernel_zero_sigma e σ hσ he⟩

/-- C5 witness: concrete instantiation with `exp := fun _ => 1`, `σ = 1`. -/
theorem c5_witness :
    gaussian_blur (fun _ => (1 : ℚ)) [[(3, 3, 3)]] 0 = none ∧
    gaussian_kernel (fun _ => (1 : ℚ)) 0 (some 1) = some [1] :=
  c5_amended (fun _ => 1) [[(3, 3, 3)]] 1 (by norm_num) (by norm_num)

/-! ## Claim C7 -/

/-- C7 counterexample: a negative radius is *not* rejected: the kernel comes back
as the empty list without any error, and the blur silently returns an all-black
buffer (every channel sum stays 0 over an empty kernel) — a successful `some`
result that differs from the input, not a reported recoverable error. -/
theorem c7_counterexample :
    gaussian_kernel (fun _ => 1) (-1) none = some [] ∧
    gaussian_blur (fun _ => 1) [[(7, 7, 7)]] (-1) = some [[(0, 0, 0)]] ∧
    some [[((0 : Int), (0 : Int), (0 : Int))]] ≠ some [[((7 : Int), (7 : Int), (7 : Int))]] :=
  ⟨by decide, by decide, by decide⟩

/-- C7 (amended): a negative radius produces the empty kernel `[]` with no error,
and the blur then silently returns an all-zero (black) buffer of the input's
dimensions rather than rejecting the request; a zero radius fails with a
division-by-zero error (modelled `none`) in kernel construction rather than a
graceful rejection. -/
theorem c7_amended (e : ℚ → ℚ) (radius : Int) (image : Frame) (hrad : radius < 0) :
    gaussian_kernel e radius none = some [] ∧
    (image ≠ [] → gaussian_blur e image radius =
      some (List.replicate image.length
        (List.replicate (image.headD []).length ((0 : Int), (0 : Int), (0 : Int))))) ∧
    gaussian_blur e image 0 = none :=
  ⟨gaussian_kernel_neg e radius hrad,
   fun hne => gaussian_blur_neg e radius image hrad hne,
   gaussian_blur_zero e image⟩

/-- C7 witness: concrete instantiation at radius `-1` on a 1×1 buffer. -/
theorem c7_witness :
    gaussian_kernel (fun _ => (1 : ℚ)) (-1) none = some [] ∧
    gaussian_blur (fun _ => (1 : ℚ)) [[(7, 7, 7)]] (-1) =
      some (List.replicate ([[((7 : Int), (7 : Int), (7 : Int))]] : Frame).length
        (List.replicate (([[((7 : Int), (7 : Int), (7 : Int))]] : Frame).headD []).length
          ((0 : Int), (0 : Int), (0 : Int)))) ∧
    gaussian_blur (fun _ => (1 : ℚ)) [[((7 : Int), 7, 7)]] 0 = none := by
  have h := c7_amended (fun _ => 1) (-1) [[(7, 7, 7)]] (by norm_num)
  exact ⟨h.1, h.2.1 (by decide), h.2.2⟩
